import Mathlib

/-!
Verification of the Monglo document-database administration layer.

This development gives a shallow embedding of the core of the Monglo
codebase (relationship detection and resolution, schema introspection,
query building, CRUD list/update/bulk-delete, cursor pagination) and
proves or refutes the frozen specification claims about it.

Modelling conventions:
* Python / BSON runtime values are the inductive `Value`; a Python dict
  (a BSON document) is an insertion-ordered association list
  `Doc = List (String × Value)` with unique keys.  `ObjectId` is
  modelled by a `Nat` payload, `DBRef` by its collection name and id
  payload, floats / datetimes / binaries by opaque payloads: only
  identity of such values matters to the code under verification.
* Value equality is the structural equality of the embedding; Python's
  numeric cross-type coercion (`True == 1`) is not modelled, as no code
  path under verification depends on it.
* The MongoDB store is a map from collection name to the list of its
  documents in natural order; `find` with an `$in` query is modelled by
  filtering with `docMatchesIn`.
-/

namespace Monglo

/-- Python/BSON runtime values as consumed and produced by the code. -/
inductive Value where
  | vnull
  | vbool (b : Bool)
  | vint (n : Int)
  | vfloat (payload : Int)
  | vstr (s : String)
  | vdatetime (t : Int)
  | vdate (t : Int)
  | oid (n : Nat)
  | vdbref (coll : String) (id : Nat)
  | vbin (payload : Nat)
  | vdoc (fields : List (String × Value))
  | varr (elems : List Value)
deriving Repr


/- Decidable equality for values, by mutual structural recursion with
the nested field and element lists. -/
mutual

def Value.decEq : (a b : Value) → Decidable (a = b)
  | .vnull, .vnull => isTrue rfl
  | .vbool a, .vbool b =>
      if h : a = b then isTrue (by rw [h])
      else isFalse (fun he => h (Value.vbool.inj he))
  | .vint a, .vint b =>
      if h : a = b then isTrue (by rw [h])
      else isFalse (fun he => h (Value.vint.inj he))
  | .vfloat a, .vfloat b =>
      if h : a = b then isTrue (by rw [h])
      else isFalse (fun he => h (Value.vfloat.inj he))
  | .vstr a, .vstr b =>
      if h : a = b then isTrue (by rw [h])
      else isFalse (fun he => h (Value.vstr.inj he))
  | .vdatetime a, .vdatetime b =>
      if h : a = b then isTrue (by rw [h])
      else isFalse (fun he => h (Value.vdatetime.inj he))
  | .vdate a, .vdate b =>
      if h : a = b then isTrue (by rw [h])
      else isFalse (fun he => h (Value.vdate.inj he))
  | .oid a, .oid b =>
      if h : a = b then isTrue (by rw [h])
      else isFalse (fun he => h (Value.oid.inj he))
  | .vbin a, .vbin b =>
      if h : a = b then isTrue (by rw [h])
      else isFalse (fun he => h (Value.vbin.inj he))
  | .vdbref c1 i1, .vdbref c2 i2 =>
      if h1 : c1 = c2 then
        if h2 : i1 = i2 then isTrue (by rw [h1, h2])
        else isFalse (fun he => h2 (Value.vdbref.inj he).2)
      else isFalse (fun he => h1 (Value.vdbref.inj he).1)
  | .vdoc fs, .vdoc gs =>
      match Value.decEqFields fs gs with
      | isTrue h => isTrue (by rw [h])
      | isFalse h => isFalse (fun he => h (Value.vdoc.inj he))
  | .varr xs, .varr ys =>
      match Value.decEqList xs ys with
      | isTrue h => isTrue (by rw [h])
      | isFalse h => isFalse (fun he => h (Value.varr.inj he))
  | .vnull, .vbool _
  | .vnull, .vint _
  | .vnull, .vfloat _
  | .vnull, .vstr _
  | .vnull, .vdatetime _
  | .vnull, .vdate _
  | .vnull, .oid _
  | .vnull, .vdbref _ _
  | .vnull, .vbin _
  | .vnull, .vdoc _
  | .vnull, .varr _
  | .vbool _, .vnull
  | .vbool _, .vint _
  | .vbool _, .vfloat _
  | .vbool _, .vstr _
  | .vbool _, .vdatetime _
  | .vbool _, .vdate _
  | .vbool _, .oid _
  | .vbool _, .vdbref _ _
  | .vbool _, .vbin _
  | .vbool _, .vdoc _
  | .vbool _, .varr _
  | .vint _, .vnull
  | .vint _, .vbool _
  | .vint _, .vfloat _
  | .vint _, .vstr _
  | .vint _, .vdatetime _
  | .vint _, .vdate _
  | .vint _, .oid _
  | .vint _, .vdbref _ _
  | .vint _, .vbin _
  | .vint _, .vdoc _
  | .vint _, .varr _
  | .vfloat _, .vnull
  | .vfloat _, .vbool _
  | .vfloat _, .vint _
  | .vfloat _, .vstr _
  | .vfloat _, .vdatetime _
  | .vfloat _, .vdate _
  | .vfloat _, .oid _
  | .vfloat _, .vdbref _ _
  | .vfloat _, .vbin _
  | .vfloat _, .vdoc _
  | .vfloat _, .varr _
  | .vstr _, .vnull
  | .vstr _, .vbool _
  | .vstr _, .vint _
  | .vstr _, .vfloat _
  | .vstr _, .vdatetime _
  | .vstr _, .vdate _
  | .vstr _, .oid _
  | .vstr _, .vdbref _ _
  | .vstr _, .vbin _
  | .vstr _, .vdoc _
  | .vstr _, .varr _
  | .vdatetime _, .vnull
  | .vdatetime _, .vbool _
  | .vdatetime _, .vint _
  | .vdatetime _, .vfloat _
  | .vdatetime _, .vstr _
  | .vdatetime _, .vdate _
  | .vdatetime _, .oid _
  | .vdatetime _, .vdbref _ _
  | .vdatetime _, .vbin _
  | .vdatetime _, .vdoc _
  | .vdatetime _, .varr _
  | .vdate _, .vnull
  | .vdate _, .vbool _
  | .vdate _, .vint _
  | .vdate _, .vfloat _
  | .vdate _, .vstr _
  | .vdate _, .vdatetime _
  | .vdate _, .oid _
  | .vdate _, .vdbref _ _
  | .vdate _, .vbin _
  | .vdate _, .vdoc _
  | .vdate _, .varr _
  | .oid _, .vnull
  | .oid _, .vbool _
  | .oid _, .vint _
  | .oid _, .vfloat _
  | .oid _, .vstr _
  | .oid _, .vdatetime _
  | .oid _, .vdate _
  | .oid _, .vdbref _ _
  | .oid _, .vbin _
  | .oid _, .vdoc _
  | .oid _, .varr _
  | .vdbref _ _, .vnull
  | .vdbref _ _, .vbool _
  | .vdbref _ _, .vint _
  | .vdbref _ _, .vfloat _
  | .vdbref _ _, .vstr _
  | .vdbref _ _, .vdatetime _
  | .vdbref _ _, .vdate _
  | .vdbref _ _, .oid _
  | .vdbref _ _, .vbin _
  | .vdbref _ _, .vdoc _
  | .vdbref _ _, .varr _
  | .vbin _, .vnull
  | .vbin _, .vbool _
  | .vbin _, .vint _
  | .vbin _, .vfloat _
  | .vbin _, .vstr _
  | .vbin _, .vdatetime _
  | .vbin _, .vdate _
  | .vbin _, .oid _
  | .vbin _, .vdbref _ _
  | .vbin _, .vdoc _
  | .vbin _, .varr _
  | .vdoc _, .vnull
  | .vdoc _, .vbool _
  | .vdoc _, .vint _
  | .vdoc _, .vfloat _
  | .vdoc _, .vstr _
  | .vdoc _, .vdatetime _
  | .vdoc _, .vdate _
  | .vdoc _, .oid _
  | .vdoc _, .vdbref _ _
  | .vdoc _, .vbin _
  | .vdoc _, .varr _
  | .varr _, .vnull
  | .varr _, .vbool _
  | .varr _, .vint _
  | .varr _, .vfloat _
  | .varr _, .vstr _
  | .varr _, .vdatetime _
  | .varr _, .vdate _
  | .varr _, .oid _
  | .varr _, .vdbref _ _
  | .varr _, .vbin _
  | .varr _, .vdoc _ => isFalse (fun h => Value.noConfusion h)
 
def Value.decEqFields : (fs gs : List (String × Value)) → Decidable (fs = gs)
  | [], [] => isTrue rfl
  | [], _ :: _ => isFalse (fun h => List.noConfusion h)
  | _ :: _, [] => isFalse (fun h => List.noConfusion h)
  | (k, v) :: fs, (k2, v2) :: gs =>
      if h1 : k = k2 then
        match Value.decEq v v2, Value.decEqFields fs gs with
        | isTrue h2, isTrue h3 => isTrue (by rw [h1, h2, h3])
        | isFalse h, _ => isFalse (fun he => by cases he; exact h rfl)
        | _, isFalse h => isFalse (fun he => by cases he; exact h rfl)
      else isFalse (fun he => by cases he; exact h1 rfl)

def Value.decEqList : (xs ys : List Value) → Decidable (xs = ys)
  | [], [] => isTrue rfl
  | [], _ :: _ => isFalse (fun h => List.noConfusion h)
  | _ :: _, [] => isFalse (fun h => List.noConfusion h)
  | x :: xs, y :: ys =>
      match Value.decEq x y with
      | isFalse h => isFalse (fun he => by cases he; exact h rfl)
      | isTrue h1 =>
          match Value.decEqList xs ys with
          | isFalse h => isFalse (fun he => by cases he; exact h rfl)
          | isTrue h2 => isTrue (by rw [h1, h2])

end

instance : DecidableEq Value := fun a b => Value.decEq a b

/-- A BSON document: a Python dict, i.e. an insertion-ordered list of
key/value pairs with unique keys. -/
abbrev Doc := List (String × Value)

/-- Python `d[k]` / `k in d` lookup: the binding of the first (unique)
occurrence of the key. -/
def dictGet (d : Doc) (k : String) : Option Value :=
  (d.find? (fun p => p.1 = k)).map (fun p => p.2)

/-- Python `d[k] = v`: replace the binding in place if the key exists,
else append the new binding at the end (dict insertion order). -/
def dictSet (d : Doc) (k : String) (v : Value) : Doc :=
  match d with
  | [] => [(k, v)]
  | (k', v') :: rest =>
      if k' = k then (k, v) :: rest else (k', v') :: dictSet rest k v

/-- Python string `endswith`: suffix test on the character list. -/
def pyEndsWith (w suffix : String) : Bool :=
  suffix.data.isSuffixOf w.data

/-- Python slice `w[:-n]` for `n ≥ 1`: drop the last `n` characters. -/
def chopRight (w : String) (n : Nat) : String :=
  ⟨w.data.take (w.data.length - n)⟩

/-- Python `w[-2]` as an option (present when the word has ≥ 2 chars). -/
def secondLastChar (w : String) : Option Char :=
  w.data.reverse[1]?

/-- Test membership of an optional character in the vowel string
"aeiou", the check `word[-2] not in "aeiou"` negated. -/
def isVowelOpt (c : Option Char) : Bool :=
  match c with
  | some c => c ∈ ("aeiou".data)
  | none => false

/-- Types of relationships between collections
(`RelationshipType` in `core/relationships.py`). -/
inductive RelationshipType where
  | one_to_one
  | one_to_many
  | many_to_many
  | embedded
deriving DecidableEq, Repr

/-- A relationship between collections
(dataclass `Relationship` in `core/relationships.py`). -/
structure Relationship where
  source_collection : String
  source_field : String
  target_collection : String
  target_field : String := "_id"
  type : RelationshipType := .one_to_one
  reverse_name : Option String := none
deriving DecidableEq, Repr

/-- Simple pluralization for collection name guessing
(`RelationshipDetector._pluralize`): consonant+`y` becomes `ies`;
words ending in `s`, `ss`, `x`, `z`, `ch`, `sh` get `es`; otherwise `s`
is appended. -/
def pluralize (word : String) : String :=
  if pyEndsWith word "y" && decide (word.length > 1)
      && !isVowelOpt (secondLastChar word) then
    chopRight word 1 ++ "ies"
  else if pyEndsWith word "s" || pyEndsWith word "ss" || pyEndsWith word "x"
      || pyEndsWith word "z" || pyEndsWith word "ch" || pyEndsWith word "sh" then
    word ++ "es"
  else
    word ++ "s"

/-- Guess a collection name from a field name
(`RelationshipDetector._guess_collection_from_field`): strip an `_ids`
suffix then pluralize; else strip an `_id` suffix then pluralize; else
pluralize the bare field name. -/
def guessCollectionFromField (field : String) : String :=
  if pyEndsWith field "_ids" then
    pluralize (chopRight field 4)
  else if pyEndsWith field "_id" then
    pluralize (chopRight field 3)
  else
    pluralize field

/-- Per-field body of `RelationshipDetector._detect_in_document`: the
four detection strategies tried for one non-identity field.  Strategy 1
(naming convention with a known target) emits and stops; otherwise the
value-shape strategies 2 (bare ObjectId), 3 (array of ObjectIds) and 4
(DBRef) are a single if/elif chain. -/
def detectField (cache : List String) (collection_name field : String)
    (value : Value) : List Relationship :=
  if (pyEndsWith field "_id" || pyEndsWith field "_ids")
      && decide (guessCollectionFromField field ∈ cache) then
    [{ source_collection := collection_name
       source_field := field
       target_collection := guessCollectionFromField field
       target_field := "_id"
       type := if pyEndsWith field "_ids" then .one_to_many else .one_to_one }]
  else
    match value with
    | .oid _ =>
        if !pyEndsWith field "_id" && decide (pluralize field ∈ cache) then
          [{ source_collection := collection_name
             source_field := field
             target_collection := pluralize field
             target_field := "_id"
             type := .one_to_one }]
        else []
    | .varr (.oid _ :: _) =>
        if guessCollectionFromField field ∈ cache then
          [{ source_collection := collection_name
             source_field := field
             target_collection := guessCollectionFromField field
             target_field := "_id"
             type := .one_to_many }]
        else []
    | .vdbref c _ =>
        [{ source_collection := collection_name
           source_field := field
           target_collection := c
           target_field := "_id"
           type := .one_to_one }]
    | _ => []

/-- Relationship detection within a single document
(`RelationshipDetector._detect_in_document`): every field except `_id`
is examined in document order and the detected relationships are
appended. -/
def detectInDocument (cache : List String) (collection_name : String)
    (document : Doc) : List Relationship :=
  document.foldl
    (fun acc p =>
      if p.1 = "_id" then acc
      else acc ++ detectField cache collection_name p.1 p.2)
    []

/-- Spec reading of the first pluralization rule: the word ends in a
consonant followed by `y`, i.e. its last character is `y` and the
character before it exists and is not a vowel. -/
def endsInConsonantY (w : String) : Bool :=
  match w.data.reverse with
  | y :: c :: _ => y = 'y' && !decide (c ∈ "aeiou".data)
  | _ => false

/-- Spec reading of the second pluralization rule: the word ends in
`s`, `ss`, `x`, `z`, `ch` or `sh`. -/
def endsInSibilant (w : String) : Bool :=
  pyEndsWith w "s" || pyEndsWith w "ss" || pyEndsWith w "x"
    || pyEndsWith w "z" || pyEndsWith w "ch" || pyEndsWith w "sh"

/-- Pluralization as worded by the spec: trailing `y` replaced by `ies`
for consonant+`y` words; `es` appended after a sibilant ending;
otherwise `s` appended. -/
def specPluralize (w : String) : String :=
  if endsInConsonantY w then chopRight w 1 ++ "ies"
  else if endsInSibilant w then w ++ "es"
  else w ++ "s"

/-- Field-to-collection guess as worded by the spec: strip an `_ids`
suffix then pluralize the remainder; else strip an `_id` suffix then
pluralize; else pluralize the bare field name. -/
def specGuess (field : String) : String :=
  if pyEndsWith field "_ids" then specPluralize (chopRight field 4)
  else if pyEndsWith field "_id" then specPluralize (chopRight field 3)
  else specPluralize field

theorem endsInConsonantY_eq (w : String) :
    endsInConsonantY w
      = (pyEndsWith w "y" && decide (w.length > 1)
          && !isVowelOpt (secondLastChar w)) := by
  unfold endsInConsonantY pyEndsWith secondLastChar isVowelOpt
  have hlen : w.length = w.data.reverse.length := by
    rw [List.length_reverse, String.length]
  have hy : ("y".data).reverse = ['y'] := rfl
  simp only [List.isSuffixOf, hlen, hy]
  generalize w.data.reverse = rl
  match rl with
  | [] => rfl
  | [y] => simp [List.isPrefixOf]
  | y :: c :: rest =>
      by_cases hyy : y = 'y'
      · simp [List.isPrefixOf, hyy]
      · simp [List.isPrefixOf, hyy, Ne.symm hyy]

theorem pluralize_eq_specPluralize (w : String) :
    pluralize w = specPluralize w := by
  unfold pluralize specPluralize endsInSibilant
  rw [endsInConsonantY_eq]

theorem guess_eq_specGuess (f : String) :
    guessCollectionFromField f = specGuess f := by
  unfold guessCollectionFromField specGuess
  rw [pluralize_eq_specPluralize, pluralize_eq_specPluralize,
    pluralize_eq_specPluralize]

/-- C3: the pluralization function implements exactly the spec's rule
(consonant+`y` to `ies`; sibilant endings get `es`; `s` otherwise),
reproduces the five quoted examples, and the field-to-collection guess
strips `_ids` then pluralizes, else strips `_id` then pluralizes, else
pluralizes the bare field name. -/
theorem c3_pluralization_rule :
    (∀ w : String, pluralize w = specPluralize w)
      ∧ (∀ f : String, guessCollectionFromField f = specGuess f)
      ∧ pluralize "user" = "users"
      ∧ pluralize "category" = "categories"
      ∧ pluralize "class" = "classes"
      ∧ pluralize "box" = "boxes"
      ∧ pluralize "bus" = "buses" :=
  ⟨pluralize_eq_specPluralize, guess_eq_specGuess,
    by decide, by decide, by decide, by decide, by decide⟩

/-- C2: relationship detection emits a ONE_TO_ONE edge to `users` for a
field `user_id`, a ONE_TO_MANY edge to `tags` for a field `tag_ids`, a
ONE_TO_ONE edge to `authors` for a bare-ObjectId field `author`, each
provided the target is in the cached collection-name set; and a guess
whose target collection is absent is silently dropped. -/
theorem c2_detection_strategies :
    (∀ (cache : List String) (coll : String) (v : Value),
        "users" ∈ cache →
        detectInDocument cache coll [("user_id", v)]
          = [{ source_collection := coll, source_field := "user_id",
               target_collection := "users", target_field := "_id",
               type := .one_to_one, reverse_name := none }])
    ∧ (∀ (cache : List String) (coll : String) (v : Value),
        "tags" ∈ cache →
        detectInDocument cache coll [("tag_ids", v)]
          = [{ source_collection := coll, source_field := "tag_ids",
               target_collection := "tags", target_field := "_id",
               type := .one_to_many, reverse_name := none }])
    ∧ (∀ (cache : List String) (coll : String) (n : Nat),
        "authors" ∈ cache →
        detectInDocument cache coll [("author", .oid n)]
          = [{ source_collection := coll, source_field := "author",
               target_collection := "authors", target_field := "_id",
               type := .one_to_one, reverse_name := none }])
    ∧ (∀ (cache : List String) (coll s : String),
        "users" ∉ cache →
        detectInDocument cache coll [("user_id", .vstr s)] = [])
    ∧ (∀ (cache : List String) (coll : String) (n : Nat),
        "authors" ∉ cache →
        detectInDocument cache coll [("author", .oid n)] = [])
    ∧ (∀ (cache : List String) (coll : String) (n : Nat),
        "tags" ∉ cache →
        detectInDocument cache coll [("tag_ids", .varr [.oid n])] = []) := by
  refine ⟨?_, ?_, ?_, ?_, ?_, ?_⟩
  · intro cache coll v h
    simp [detectInDocument, detectField, h,
      show guessCollectionFromField "user_id" = "users" from rfl,
      show pyEndsWith "user_id" "_id" = true from rfl,
      show pyEndsWith "user_id" "_ids" = false from rfl]
  · intro cache coll v h
    simp [detectInDocument, detectField, h,
      show guessCollectionFromField "tag_ids" = "tags" from rfl,
      show pyEndsWith "tag_ids" "_ids" = true from rfl,
      show pyEndsWith "tag_ids" "_id" = false from rfl]
  · intro cache coll n h
    simp [detectInDocument, detectField, h,
      show pluralize "author" = "authors" from rfl,
      show pyEndsWith "author" "_id" = false from rfl,
      show pyEndsWith "author" "_ids" = false from rfl]
  · intro cache coll s h
    simp [detectInDocument, detectField, h,
      show guessCollectionFromField "user_id" = "users" from rfl]
  · intro cache coll n h
    simp [detectInDocument, detectField, h,
      show pluralize "author" = "authors" from rfl,
      show pyEndsWith "author" "_id" = false from rfl,
      show pyEndsWith "author" "_ids" = false from rfl]
  · intro cache coll n h
    simp [detectInDocument, detectField, h,
      show guessCollectionFromField "tag_ids" = "tags" from rfl,
      show pyEndsWith "tag_ids" "_id" = false from rfl]

/-- C2 witness: the detection conclusions instantiated on concrete
caches, discharging each membership hypothesis. -/
theorem c2_detection_strategies_witness :
    detectInDocument ["users"] "orders" [("user_id", .vstr "x")]
        = [{ source_collection := "orders", source_field := "user_id",
             target_collection := "users", target_field := "_id",
             type := .one_to_one, reverse_name := none }]
      ∧ detectInDocument ["tags"] "posts" [("tag_ids", .varr [.oid 1])]
        = [{ source_collection := "posts", source_field := "tag_ids",
             target_collection := "tags", target_field := "_id",
             type := .one_to_many, reverse_name := none }]
      ∧ detectInDocument ["authors"] "books" [("author", .oid 2)]
        = [{ source_collection := "books", source_field := "author",
             target_collection := "authors", target_field := "_id",
             type := .one_to_one, reverse_name := none }]
      ∧ detectInDocument ["users"] "books" [("author", .oid 2)] = [] :=
  ⟨c2_detection_strategies.1 ["users"] "orders" (.vstr "x") (by decide),
    c2_detection_strategies.2.1 ["tags"] "posts" (.varr [.oid 1]) (by decide),
    c2_detection_strategies.2.2.1 ["authors"] "books" 2 (by decide),
    c2_detection_strategies.2.2.2.2.1 ["users"] "books" 2 (by decide)⟩

/-- Document ids as accepted by the CRUD layer: a raw string or an
already-constructed ObjectId (`id: str | ObjectId`). -/
inductive IdInput where
  | str (s : String)
  | oidVal (n : Nat)
deriving DecidableEq, Repr

/-- Validity of an ObjectId string as checked by `bson.ObjectId`:
exactly 24 hexadecimal characters. -/
def isValidOidString (s : String) : Bool :=
  s.length == 24
    && s.data.all (fun c =>
        c.isDigit || ('a' ≤ c && c ≤ 'f') || ('A' ≤ c && c ≤ 'F'))

/-- Numeric value of one hexadecimal digit. -/
def hexVal (c : Char) : Nat :=
  if c.isDigit then c.toNat - '0'.toNat
  else if 'a' ≤ c && c ≤ 'f' then c.toNat - 'a'.toNat + 10
  else c.toNat - 'A'.toNat + 10

/-- Numeric payload of a 24-hex-character ObjectId string. -/
def oidOfString (s : String) : Nat :=
  s.data.foldl (fun acc c => 16 * acc + hexVal c) 0

/-- Conversion of a CRUD id input to an ObjectId as done by the
`ObjectId(id)` / `except InvalidId` pattern: a string converts only
when valid; an ObjectId instance passes through. -/
def toObjectId : IdInput → Option Nat
  | .str s => if isValidOidString s then some (oidOfString s) else none
  | .oidVal n => some n

/-- Errors surfaced by the CRUD layer (`ValueError` for invalid ids and
empty payloads is split into its two distinct uses, `KeyError` is the
not-found case). -/
inductive CrudError where
  | invalidId
  | notFound
  | validationError
deriving DecidableEq, Repr

/-- Mongo `find_one({"_id": idv})`: first document in natural order
whose identity field equals the value. -/
def findOne (store : List Doc) (idv : Value) : Option Doc :=
  store.find? (fun d => dictGet d "_id" = some idv)

/-- Python `del data["_id"]` on a copied dict: drop the binding. -/
def pyDictDel (d : Doc) (k : String) : Doc :=
  d.filter (fun p => !(p.1 == k))

/-- Mongo `$set` update document applied to one stored document: each
named top-level field is written in turn (dotted-path deep updates are
not used by the code under verification and are not modelled). -/
def applySet (d : Doc) (data : Doc) : Doc :=
  data.foldl (fun acc p => dictSet acc p.1 p.2) d

/-- Replacement of the first document matching the identity value, as
done by `update_one` / `replace_one` (at most one document is
affected). -/
def replaceFirstMatching (store : List Doc) (idv : Value) (f : Doc → Doc) :
    List Doc :=
  match store with
  | [] => []
  | d :: rest =>
      if dictGet d "_id" = some idv then f d :: rest
      else d :: replaceFirstMatching rest idv f

/-- The `CRUDOperations.update` flow: reject an empty payload, convert
the id, strip `_id` from the payload, apply a `$set` merge
(`partialFlag = true`) or a full replacement that keeps the identity
field, fail with not-found when nothing matched, and finally re-fetch.
The pair returned is (call outcome, store after the call). -/
def update (store : List Doc) (id : IdInput) (data : Doc)
    (partialFlag : Bool) : Except CrudError (Option Doc) × List Doc :=
  if data = [] then (.error .validationError, store)
  else
    match toObjectId id with
    | none => (.error .invalidId, store)
    | some n =>
        let data2 :=
          if (dictGet data "_id").isSome then pyDictDel data "_id" else data
        let idv := Value.oid n
        let matched := store.any (fun d => dictGet d "_id" = some idv)
        let newStore :=
          if partialFlag then
            replaceFirstMatching store idv (fun d => applySet d data2)
          else
            replaceFirstMatching store idv (fun _ => ("_id", idv) :: data2)
        if matched then (.ok (findOne newStore idv), newStore)
        else (.error .notFound, store)

/-- Result shape of `CRUDOperations.bulk_delete`: the early return for
an all-invalid batch carries no `requested_count` key, hence the
optional field. -/
structure BulkDeleteResult where
  deleted_count : Nat
  requested_count : Option Nat
  success : Bool
deriving DecidableEq, Repr

/-- Match of a document against `{"_id": {"$in": object_ids}}`. -/
def docIdInOids (d : Doc) (oids : List Nat) : Bool :=
  match dictGet d "_id" with
  | some v => oids.any (fun n => v = Value.oid n)
  | none => false

/-- The `CRUDOperations.bulk_delete` flow: string ids that fail
ObjectId conversion are skipped; with no remaining ids the early result
`{"deleted_count": 0, "success": True}` is returned; otherwise one
`delete_many` removes every document whose id is in the converted
batch. -/
def bulk_delete (store : List Doc) (ids : List IdInput) :
    BulkDeleteResult × List Doc :=
  let object_ids := ids.filterMap toObjectId
  if object_ids = [] then
    ({ deleted_count := 0, requested_count := none, success := true }, store)
  else
    ({ deleted_count :=
         (store.filter (fun d => docIdInOids d object_ids)).length,
       requested_count := some ids.length,
       success := true },
     store.filter (fun d => !(docIdInOids d object_ids)))

/-- The `QueryBuilder.build_pagination_query` computation: clamp
`page ≥ 1` and `per_page` into `[1, max_per_page]`, then return
`(skip, limit)`. -/
def build_pagination_query (page per_page max_per_page : Int) : Int × Int :=
  let page2 := max 1 page
  let pp2 := max 1 (min per_page max_per_page)
  ((page2 - 1) * pp2, pp2)

/-- Result shape of `CRUDOperations.list`. -/
structure ListResult where
  items : List Doc
  total : Nat
  page : Int
  per_page : Int
  pages : Int
  has_next : Bool
  has_prev : Bool
deriving DecidableEq, Repr

/-- The `CRUDOperations.list` flow over an abstract combined query and
sort: `total` is a full count of the matching documents, `skip`/`limit`
come from `build_pagination_query`, items are the sorted matching
documents sliced by skip/limit, and the metadata uses the raw
`per_page` with Python floor division for the page count.  The `sorter`
argument abstracts the store's sort of the matching documents. -/
def crudList (sorter : List Doc → List Doc) (store : List Doc)
    (finalQuery : Doc → Bool) (page per_page max_per_page : Int) :
    ListResult :=
  let matching := store.filter finalQuery
  let total := matching.length
  let sl := build_pagination_query page per_page max_per_page
  let items := ((sorter matching).drop sl.1.toNat).take sl.2.toNat
  let total_pages : Int :=
    if per_page > 0 then Int.fdiv ((total : Int) + per_page - 1) per_page
    else 1
  { items := items, total := total, page := page, per_page := per_page,
    pages := total_pages,
    has_next := decide (page < total_pages),
    has_prev := decide (page > 1) }

/-- A store of 47 documents used for the concrete pagination scenario
of the spec. -/
def store47 : List Doc :=
  (List.range 47).map (fun n => [("_id", Value.oid n)])

theorem fdiv_add_pred_eq_ceil (t : Nat) (p : Int) (hp : 0 < p) :
    Int.fdiv ((t : Int) + p - 1) p = ⌈(t : ℚ) / (p : ℚ)⌉ := by
  rw [Int.fdiv_eq_ediv _ hp.le]
  have hpq := Int.ediv_add_emod ((t : Int) + p - 1) p
  have hr0 := Int.emod_nonneg ((t : Int) + p - 1) hp.ne'
  have hrp := Int.emod_lt_of_pos ((t : Int) + p - 1) hp
  have hpQ : (0 : ℚ) < (p : ℚ) := by exact_mod_cast hp
  rw [eq_comm, Int.ceil_eq_iff]
  constructor
  · rw [lt_div_iff₀ hpQ, sub_mul, one_mul]
    have hz : ((((t : Int) + p - 1) / p : Int) : ℚ) * (p : ℚ) - (p : ℚ)
        < (t : ℚ) := by
      exact_mod_cast show (((t : Int) + p - 1) / p) * p - p < (t : Int) by
        linarith
    exact hz
  · rw [div_le_iff₀ hpQ]
    exact_mod_cast show (t : Int) ≤ (((t : Int) + p - 1) / p) * p by linarith

/-- C6: the list operation's metadata always satisfies
`pages = ceil(total / per_page)`, `has_next = (page < pages)` and
`has_prev = (page > 1)`; and on the concrete 47-document store with
`per_page = 10`, page 5 has exactly 7 items with no next page, while
page 10 is empty with `total` still 47. -/
theorem c6_list_pagination :
    (∀ (sorter : List Doc → List Doc) (store : List Doc)
        (q : Doc → Bool) (page per_page maxpp : Int),
        0 < per_page →
        (crudList sorter store q page per_page maxpp).pages
            = ⌈((crudList sorter store q page per_page maxpp).total : ℚ)
                / (per_page : ℚ)⌉
          ∧ (crudList sorter store q page per_page maxpp).has_next
            = decide (page < (crudList sorter store q page per_page maxpp).pages)
          ∧ (crudList sorter store q page per_page maxpp).has_prev
            = decide (page > 1))
      ∧ (crudList id store47 (fun _ => true) 5 10 100).pages = 5
      ∧ (crudList id store47 (fun _ => true) 5 10 100).items.length = 7
      ∧ (crudList id store47 (fun _ => true) 5 10 100).has_next = false
      ∧ (crudList id store47 (fun _ => true) 5 10 100).total = 47
      ∧ (crudList id store47 (fun _ => true) 10 10 100).items = []
      ∧ (crudList id store47 (fun _ => true) 10 10 100).has_next = false
      ∧ (crudList id store47 (fun _ => true) 10 10 100).total = 47 := by
  refine ⟨?_, by decide, by decide, by decide, by decide, by decide,
    by decide, by decide⟩
  intro sorter store q page per_page maxpp hpp
  refine ⟨?_, rfl, rfl⟩
  simp only [crudList, if_pos hpp]
  exact fdiv_add_pred_eq_ceil _ per_page hpp

/-- C6 witness: the metadata law applied to the concrete 47-document
scenario, discharging the positivity hypothesis at `per_page = 10`. -/
theorem c6_list_pagination_witness :
    (0 : Int) < 10
      ∧ (crudList id store47 (fun _ => true) 5 10 100).pages
          = ⌈((crudList id store47 (fun _ => true) 5 10 100).total : ℚ)
              / ((10 : Int) : ℚ)⌉ :=
  ⟨by decide,
    (c6_list_pagination.1 id store47 (fun _ => true) 5 10 100 (by decide)).1⟩

/-- C7: an update with an empty payload always fails with the
validation error before any store write, leaving the store unchanged. -/
theorem c7_update_empty_payload (store : List Doc) (id : IdInput)
    (partialFlag : Bool) :
    update store id [] partialFlag
      = (.error .validationError, store) := rfl

/-- C9 counterexample: a batch consisting of one malformed id string is
skipped, so the early return fires and the result carries no
`requested_count` at all — it does not report the count of requested
ids. -/
theorem c9_bulk_delete_counterexample :
    (bulk_delete [[("_id", Value.oid 5)]] [IdInput.str "zzz"]).1.requested_count
        = none
      ∧ ¬ ((bulk_delete [[("_id", Value.oid 5)]]
            [IdInput.str "zzz"]).1.requested_count
          = some ([IdInput.str "zzz"] : List IdInput).length) := by
  constructor
  · rfl
  · decide

/-- C9 amended: invalid ids in the batch are skipped rather than
failing; when at least one id converts, the result reports the
requested count and the count of documents actually deleted; when no id
converts, the early result carries only a zero deleted count and the
store is untouched. -/
theorem c9_bulk_delete_counts (store : List Doc) (ids : List IdInput) :
    (ids.filterMap toObjectId ≠ [] →
        (bulk_delete store ids).1.requested_count = some ids.length
          ∧ (bulk_delete store ids).1.deleted_count
            = (store.filter
                (fun d => docIdInOids d (ids.filterMap toObjectId))).length
          ∧ (bulk_delete store ids).2
            = store.filter
                (fun d => !(docIdInOids d (ids.filterMap toObjectId)))
          ∧ (bulk_delete store ids).1.success = true)
      ∧ (ids.filterMap toObjectId = [] →
          (bulk_delete store ids).1
              = { deleted_count := 0, requested_count := none, success := true }
            ∧ (bulk_delete store ids).2 = store) := by
  unfold bulk_delete
  constructor <;> intro h <;> simp [h]

/-- C9 witness: the amended bulk-delete law applied to a concrete
two-document store and a batch with one valid and one invalid id. -/
theorem c9_bulk_delete_counts_witness :
    ([IdInput.oidVal 5, IdInput.str "zzz"].filterMap toObjectId ≠ [])
      ∧ (bulk_delete [[("_id", Value.oid 5)], [("_id", Value.oid 6)]]
          [IdInput.oidVal 5, IdInput.str "zzz"]).1.requested_count = some 2 :=
  ⟨by decide,
    ((c9_bulk_delete_counts [[("_id", Value.oid 5)], [("_id", Value.oid 6)]]
      [IdInput.oidVal 5, IdInput.str "zzz"]).1 (by decide)).1⟩

/-- View of a value as a Python list, mirroring
`isinstance(value, list)` tests: the element list when the value is an
array, nothing otherwise. -/
def Value.asArr : Value → Option (List Value)
  | .varr vs => some vs
  | _ => none

/-- Python hashability of a value: dicts and lists are unhashable, so
`val in related_map` raises `TypeError` on them; every other modelled
value (None, bool, int, float, str, datetime, date, ObjectId, DBRef,
bytes) hashes fine. -/
def Value.hashable : Value → Bool
  | .vdoc _ => false
  | .varr _ => false
  | _ => true

/-- Match of a document against `{field: {"$in": vals}}`: the field's
value equals one of the listed values, or is an array containing one of
them (MongoDB array-membership semantics). -/
def docMatchesIn (d : Doc) (field : String) (vals : List Value) : Bool :=
  match dictGet d field with
  | some v =>
      vals.any (fun w => v = w)
        || (match v.asArr with
            | some elems => elems.any (fun e => vals.any (fun w => e = w))
            | none => false)
  | none => false

/-- The reference-value gathering loop of `resolve_batch`: for every
input document carrying the relationship's source field, array values
are flattened into the accumulator and scalar values appended. -/
def refValuesOf (documents : List Doc) (rel : Relationship) : List Value :=
  documents.foldl
    (fun acc d =>
      match dictGet d rel.source_field with
      | some v =>
          match v.asArr with
          | some vs => acc ++ vs
          | none => acc ++ [v]
      | none => acc)
    []

/-- The single batched query of `resolve_batch` for one relationship:
`find({target_field: {"$in": ref_values}}).to_list(1000)` against the
target collection. -/
def fetchRelated (db : String → List Doc) (documents : List Doc)
    (rel : Relationship) : List Doc :=
  ((db rel.target_collection).filter
      (fun d => docMatchesIn d rel.target_field (refValuesOf documents rel))).take
    1000

/-- The lookup-map comprehension `{doc[target_field]: doc for doc in
related_docs}` as an association list; a fetched document without the
target field would raise in Python, but every document matched by the
`$in` query carries the field, so such documents are skipped here. -/
def buildRelatedPairs (docs : List Doc) (tf : String) : List (Value × Doc) :=
  docs.filterMap (fun d => (dictGet d tf).map (fun v => (v, d)))

/-- Python dict lookup on the comprehension-built map for a hashable
key (the unhashable case raises `TypeError` and is handled by the
caller before this lookup is consulted): on duplicate keys the later
binding overwrites the earlier, so the last matching pair wins. -/
def pyMapLookup (m : List (Value × Doc)) (v : Value) : Option Doc :=
  (m.reverse.find? (fun p => p.1 = v)).map (fun p => p.2)

/-- Assignment `resolved_docs[idx]["_relationships"][source_field] = x`:
write into the inner `_relationships` dict.  After the initialization
loop the key always holds a dict; otherwise the write is a no-op in
this model (Python would raise). -/
def setRel (d : Doc) (sf : String) (v : Value) : Doc :=
  match dictGet d "_relationships" with
  | some (.vdoc m) => dictSet d "_relationships" (.vdoc (dictSet m sf v))
  | _ => d

/-- The per-document assignment phase of `resolve_batch` for one
relationship: array-valued sources get the list of found related
documents, scalar sources get the single found document or nothing.
The membership tests `val in related_map` / `ref_val in related_map`
hash the reference value first, so an unhashable value — a dict, or an
array containing a dict or array — raises `TypeError` and the call
fails. -/
def applyRelToDoc (m : List (Value × Doc)) (rel : Relationship)
    (src rdoc : Doc) : Except Unit Doc :=
  match dictGet src rel.source_field with
  | none => .ok rdoc
  | some v =>
      match v.asArr with
      | some vs =>
          if vs.all (fun w => w.hashable) then
            .ok (setRel rdoc rel.source_field
              (.varr (vs.filterMap (fun w => (pyMapLookup m w).map Value.vdoc))))
          else .error ()
      | none =>
          if v.hashable then
            .ok (match pyMapLookup m v with
              | some t => setRel rdoc rel.source_field (.vdoc t)
              | none => rdoc)
          else .error ()

/-- The assignment loop over all documents for one relationship,
aborting at the first document whose reference value raises
`TypeError`; later documents are left unprocessed and no result list is
produced. -/
def applyRelAll (m : List (Value × Doc)) (rel : Relationship) :
    List Doc → List Doc → Except Unit (List Doc)
  | [], _ => .ok []
  | _ :: _, [] => .ok []
  | src :: ss, rdoc :: rs =>
      match applyRelToDoc m rel src rdoc with
      | .error e => .error e
      | .ok d =>
          match applyRelAll m rel ss rs with
          | .ok ds => .ok (d :: ds)
          | .error e => .error e

/-- One iteration of the relationship loop of `resolve_batch`: skip
(no query) when no reference values were gathered, else issue the one
batched query and assign results back to every document carrying the
source field (failing on an unhashable reference value).  The second
component counts queries issued. -/
def resolveBatchStep (db : String → List Doc) (documents resolvedDocs : List Doc)
    (rel : Relationship) : Except Unit (List Doc) × Nat :=
  if refValuesOf documents rel = [] then (.ok resolvedDocs, 0)
  else
    let related_map :=
      buildRelatedPairs (fetchRelated db documents rel) rel.target_field
    (applyRelAll related_map rel documents resolvedDocs, 1)

/-- The relationship loop of `resolve_batch`: a `TypeError` raised in
one step aborts the loop, so later relationships issue no query and no
result is returned; the query counter keeps the queries issued up to
the abort. -/
def resolveBatchLoop (db : String → List Doc) (documents : List Doc) :
    List Relationship → List Doc → Nat → Except Unit (List Doc) × Nat
  | [], cur, c => (.ok cur, c)
  | rel :: rs, cur, c =>
      let st := resolveBatchStep db documents cur rel
      match st.1 with
      | .ok cur2 => resolveBatchLoop db documents rs cur2 (c + st.2)
      | .error e => (.error e, c + st.2)

/-- The `RelationshipResolver.resolve_batch` flow: early return for
non-positive depth or an empty batch, shallow copies with an empty
`_relationships` dict, then the relationship loop.  The first component
is the returned document list, or the propagated `TypeError`; the
second is the total number of store queries issued. -/
def resolve_batch (db : String → List Doc) (documents : List Doc)
    (relationships : List Relationship) (depth : Int) :
    Except Unit (List Doc) × Nat :=
  if depth ≤ 0 || documents = [] then (.ok documents, 0)
  else
    resolveBatchLoop db documents relationships
      (documents.map (fun d => dictSet d "_relationships" (.vdoc []))) 0

/-- A document carries a reference value for a relationship when its
source field is present with a scalar value or a non-empty array. -/
def carriesRef (d : Doc) (rel : Relationship) : Bool :=
  match dictGet d rel.source_field with
  | none => false
  | some v =>
      match v.asArr with
      | some vs => !(vs.isEmpty)
      | none => true

/-- Recursive restatement of the gathered reference values, used to
reason about the accumulator-passing loop. -/
def specRefValues (rel : Relationship) : List Doc → List Value
  | [] => []
  | d :: ds =>
      (match dictGet d rel.source_field with
       | some v =>
           match v.asArr with
           | some vs => vs
           | none => [v]
       | none => []) ++ specRefValues rel ds

theorem refValuesOf_eq_spec (rel : Relationship) (documents : List Doc) :
    refValuesOf documents rel = specRefValues rel documents := by
  have aux : ∀ (docs : List Doc) (acc : List Value),
      docs.foldl
          (fun acc d =>
            match dictGet d rel.source_field with
            | some v =>
                match v.asArr with
                | some vs => acc ++ vs
                | none => acc ++ [v]
            | none => acc) acc
        = acc ++ specRefValues rel docs := by
    intro docs
    induction docs with
    | nil => intro acc; simp [specRefValues]
    | cons d ds ih =>
        intro acc
        rw [List.foldl_cons, ih]
        rcases h : dictGet d rel.source_field with _ | v
        · simp [h, specRefValues]
        · rcases hv : v.asArr with _ | vs
          · simp [h, hv, specRefValues]
          · simp [h, hv, specRefValues]
  simpa [refValuesOf] using aux documents []

theorem specRefValues_nil_iff (rel : Relationship) (docs : List Doc) :
    specRefValues rel docs = [] ↔ ∀ d ∈ docs, carriesRef d rel = false := by
  induction docs with
  | nil => simp [specRefValues]
  | cons d ds ih =>
      rcases h : dictGet d rel.source_field with _ | v
      · simp [specRefValues, h, ih, carriesRef]
      · rcases hv : v.asArr with _ | vs
        · simp [specRefValues, h, hv, ih, carriesRef]
        · simp [specRefValues, h, hv, ih, carriesRef, List.isEmpty_iff]

theorem resolveBatchLoop_cons (db : String → List Doc)
    (documents : List Doc) (r : Relationship) (rs : List Relationship)
    (cur : List Doc) (c : Nat) :
    resolveBatchLoop db documents (r :: rs) cur c
      = match (resolveBatchStep db documents cur r).1 with
        | .ok cur2 => resolveBatchLoop db documents rs cur2
            (c + (resolveBatchStep db documents cur r).2)
        | .error e => (.error e, c + (resolveBatchStep db documents cur r).2) :=
  rfl

theorem resolveBatchLoop_count_le (db : String → List Doc)
    (documents : List Doc) :
    ∀ (rels : List Relationship) (cur : List Doc) (c : Nat),
      (resolveBatchLoop db documents rels cur c).2 ≤ c + rels.length := by
  intro rels
  induction rels with
  | nil => intro cur c; simp [resolveBatchLoop]
  | cons r rs ih =>
      intro cur c
      rw [resolveBatchLoop_cons]
      have hstep : (resolveBatchStep db documents cur r).2 ≤ 1 := by
        unfold resolveBatchStep
        split <;> simp
      rcases hst : (resolveBatchStep db documents cur r).1 with e | cur2
      · simp only [List.length_cons]
        omega
      · have := ih cur2 (c + (resolveBatchStep db documents cur r).2)
        simp only [List.length_cons]
        omega

theorem resolveBatchLoop_count_ok (db : String → List Doc)
    (documents : List Doc) :
    ∀ (rels : List Relationship) (cur : List Doc) (c : Nat)
      (res : List Doc),
      (resolveBatchLoop db documents rels cur c).1 = .ok res →
      (resolveBatchLoop db documents rels cur c).2
        = c + (rels.filter
            (fun rel => !(decide (refValuesOf documents rel = [])))).length := by
  intro rels
  induction rels with
  | nil => intro cur c res _; simp [resolveBatchLoop]
  | cons r rs ih =>
      intro cur c res hok
      rw [resolveBatchLoop_cons] at hok ⊢
      rcases hst : (resolveBatchStep db documents cur r).1 with e | cur2
      · rw [hst] at hok
        exact Except.noConfusion
          (show Except.error e = Except.ok res from hok)
      · rw [hst] at hok
        have hok2 : (resolveBatchLoop db documents rs cur2
            (c + (resolveBatchStep db documents cur r).2)).1
            = Except.ok res := hok
        show (resolveBatchLoop db documents rs cur2
            (c + (resolveBatchStep db documents cur r).2)).2
          = c + ((r :: rs).filter
              (fun rel => !(decide (refValuesOf documents rel = [])))).length
        rw [ih cur2 _ res hok2]
        by_cases hr : refValuesOf documents r = []
        · have h2 : (resolveBatchStep db documents cur r).2 = 0 := by
            simp [resolveBatchStep, hr]
          rw [h2]
          simp [List.filter_cons, hr]
        · have h2 : (resolveBatchStep db documents cur r).2 = 1 := by
            simp [resolveBatchStep, hr]
          rw [h2]
          simp [List.filter_cons, hr]
          omega

/-- C1 counterexample: on `[{a: {x: 1}, b: oid}]` with two carrying
relationships on `a` and `b`, the membership test `ref_val in
related_map` hashes the dict value of `a` and raises `TypeError`, so
the loop aborts after the first query: only 1 query is issued although
2 relationships carry reference values, and no document list is
returned. -/
theorem c1_query_count_counterexample :
    (resolve_batch (fun _ => [])
        [[("a", Value.vdoc [("x", Value.vint 1)]), ("b", Value.oid 1)]]
        [{ source_collection := "c", source_field := "a",
           target_collection := "as" },
         { source_collection := "c", source_field := "b",
           target_collection := "bs" }] 1).2 = 1
      ∧ ([({ source_collection := "c", source_field := "a",
             target_collection := "as" } : Relationship),
          { source_collection := "c", source_field := "b",
            target_collection := "bs" }].filter
          (fun rel =>
            [[("a", Value.vdoc [("x", Value.vint 1)]),
              ("b", Value.oid 1)]].any
              (fun d => carriesRef d rel))).length = 2
      ∧ (resolve_batch (fun _ => [])
          [[("a", Value.vdoc [("x", Value.vint 1)]), ("b", Value.oid 1)]]
          [{ source_collection := "c", source_field := "a",
             target_collection := "as" },
           { source_collection := "c", source_field := "b",
             target_collection := "bs" }] 1).1 = Except.error () :=
  ⟨rfl, by decide, rfl⟩

/-- C1 amended: for positive depth, `resolve_batch` issues at most
`len(relationships)` store queries, and on every run that returns (no
`TypeError` from an unhashable reference value aborted the loop) the
count is exactly one query per relationship for which at least one
input document carries a reference value (a scalar source value or a
non-empty array), regardless of the number of input documents.  An
aborted run can issue fewer queries than it has carrying
relationships. -/
theorem c1_batch_query_count (db : String → List Doc) (documents : List Doc)
    (relationships : List Relationship) (depth : Int) (hd : 0 < depth) :
    (resolve_batch db documents relationships depth).2
        ≤ relationships.length
      ∧ (∀ res, (resolve_batch db documents relationships depth).1
            = Except.ok res →
          (resolve_batch db documents relationships depth).2
            = (relationships.filter
                (fun rel => documents.any (fun d => carriesRef d rel))).length) := by
  have hdepth : ¬ (depth ≤ 0) := not_le.mpr hd
  have hpred : ∀ rel : Relationship,
      (!(decide (refValuesOf documents rel = [])))
        = documents.any (fun d => carriesRef d rel) := by
    intro rel
    rw [refValuesOf_eq_spec]
    by_cases hs : specRefValues rel documents = []
    · have hall := (specRefValues_nil_iff rel documents).mp hs
      have hany : documents.any (fun d => carriesRef d rel) = false :=
        List.any_eq_false.mpr (fun d hd2 => by simp [hall d hd2])
      rw [hany, hs]
      simp
    · have hex : ∃ d ∈ documents, carriesRef d rel = true := by
        by_contra hno
        push_neg at hno
        exact hs ((specRefValues_nil_iff rel documents).mpr
          (fun d hd2 => by
            have := hno d hd2
            revert this
            cases carriesRef d rel <;> simp))
      have hany : documents.any (fun d => carriesRef d rel) = true :=
        List.any_eq_true.mpr hex
      rw [hany]
      simp [hs]
  by_cases hdocs : documents = []
  · subst hdocs
    constructor
    · simp [resolve_batch]
    · intro res _
      simp [resolve_batch]
  · constructor
    · unfold resolve_batch
      rw [if_neg (by simp [hdepth, hdocs])]
      simpa using resolveBatchLoop_count_le db documents relationships _ 0
    · intro res hok
      unfold resolve_batch at hok ⊢
      rw [if_neg (by simp [hdepth, hdocs])] at hok ⊢
      rw [resolveBatchLoop_count_ok db documents relationships _ 0 res hok]
      rw [List.filter_congr (fun rel _ => hpred rel)]
      simp

/-- C1 witness: the query-count law applied to one concrete document,
relationship and store, discharging the depth and completed-run
hypotheses. -/
theorem c1_batch_query_count_witness :
    (0 : Int) < 1
      ∧ (resolve_batch (fun _ => []) [[("user_id", Value.oid 1)]]
          [{ source_collection := "orders", source_field := "user_id",
             target_collection := "users" }] 1).2 = 1 := by
  refine ⟨by decide, ?_⟩
  obtain ⟨res, hres⟩ : ∃ res,
      (resolve_batch (fun _ => []) [[("user_id", Value.oid 1)]]
        [{ source_collection := "orders", source_field := "user_id",
           target_collection := "users" }] 1).1 = Except.ok res := ⟨_, rfl⟩
  have h := (c1_batch_query_count (fun _ => []) [[("user_id", Value.oid 1)]]
    [{ source_collection := "orders", source_field := "user_id",
       target_collection := "users" }] 1 (by decide)).2 res hres
  rw [h]
  decide

/-- The `_relationships[source_field]` entry of a resolved document. -/
def getRelEntry (d : Doc) (sf : String) : Option Value :=
  match dictGet d "_relationships" with
  | some (.vdoc m) => dictGet m sf
  | _ => none

/-- A document whose `_relationships` key holds a dict, as established
by the initialization loop of `resolve_batch`. -/
def HasRelMap (d : Doc) : Prop :=
  ∃ m, dictGet d "_relationships" = some (.vdoc m)

theorem dictGet_dictSet_self (d : Doc) (k : String) (v : Value) :
    dictGet (dictSet d k v) k = some v := by
  induction d with
  | nil => simp [dictSet, dictGet]
  | cons p rest ih =>
      by_cases h : p.1 = k
      · simp [dictSet, h, dictGet]
      · simp only [dictSet, if_neg h]
        simpa [dictGet, List.find?_cons, h] using ih

theorem dictGet_dictSet_ne (d : Doc) (k k' : String) (v : Value)
    (h : k' ≠ k) : dictGet (dictSet d k v) k' = dictGet d k' := by
  induction d with
  | nil => simp [dictSet, dictGet, Ne.symm h]
  | cons p rest ih =>
      by_cases hp : p.1 = k
      · simp only [dictSet, if_pos hp]
        simp [dictGet, List.find?_cons, Ne.symm h, hp]
      · simp only [dictSet, if_neg hp]
        by_cases hk : p.1 = k'
        · simp [dictGet, List.find?_cons, hk]
        · simpa [dictGet, List.find?_cons, hk] using ih

theorem getRelEntry_setRel_self (d : Doc) (sf : String) (v : Value)
    (h : HasRelMap d) : getRelEntry (setRel d sf v) sf = some v := by
  obtain ⟨m, hm⟩ := h
  simp only [setRel, hm, getRelEntry, dictGet_dictSet_self]

theorem getRelEntry_setRel_ne (d : Doc) (sf sf' : String) (v : Value)
    (h : sf' ≠ sf) : getRelEntry (setRel d sf v) sf' = getRelEntry d sf' := by
  rcases hm : dictGet d "_relationships" with _ | w
  · simp [setRel, hm]
  · cases w with
    | vdoc m =>
        simp only [setRel, hm, getRelEntry, dictGet_dictSet_self]
        exact dictGet_dictSet_ne m sf sf' v h
    | vnull => simp [setRel, hm]
    | vbool b => simp [setRel, hm]
    | vint n => simp [setRel, hm]
    | vfloat p => simp [setRel, hm]
    | vstr s => simp [setRel, hm]
    | vdatetime t => simp [setRel, hm]
    | vdate t => simp [setRel, hm]
    | oid n => simp [setRel, hm]
    | vdbref c i => simp [setRel, hm]
    | vbin p => simp [setRel, hm]
    | varr es => simp [setRel, hm]

theorem hasRelMap_setRel (d : Doc) (sf : String) (v : Value)
    (h : HasRelMap d) : HasRelMap (setRel d sf v) := by
  obtain ⟨m, hm⟩ := h
  exact ⟨dictSet m sf v, by simp [setRel, hm, dictGet_dictSet_self]⟩

theorem getRelEntry_applyRelToDoc_ne (m : List (Value × Doc))
    (rel : Relationship) (src rdoc y : Doc)
    (hy : applyRelToDoc m rel src rdoc = .ok y) (sf' : String)
    (h : sf' ≠ rel.source_field) :
    getRelEntry y sf' = getRelEntry rdoc sf' := by
  rcases hv : dictGet src rel.source_field with _ | v
  · simp only [applyRelToDoc, hv, Except.ok.injEq] at hy
    rw [← hy]
  · rcases ha : v.asArr with _ | vs
    · by_cases hh : v.hashable
      · rcases hl : pyMapLookup m v with _ | t
        · simp only [applyRelToDoc, hv, ha, hh, if_true, hl,
            Except.ok.injEq] at hy
          rw [← hy]
        · simp only [applyRelToDoc, hv, ha, hh, if_true, hl,
            Except.ok.injEq] at hy
          rw [← hy]
          exact getRelEntry_setRel_ne rdoc rel.source_field sf' _ h
      · simp [applyRelToDoc, hv, ha, hh] at hy
    · by_cases hh : vs.all (fun w => w.hashable)
      · simp only [applyRelToDoc, hv, ha, hh, if_true,
          Except.ok.injEq] at hy
        rw [← hy]
        exact getRelEntry_setRel_ne rdoc rel.source_field sf' _ h
      · simp [applyRelToDoc, hv, ha, hh] at hy

theorem hasRelMap_applyRelToDoc (m : List (Value × Doc))
    (rel : Relationship) (src rdoc y : Doc)
    (hy : applyRelToDoc m rel src rdoc = .ok y) (h : HasRelMap rdoc) :
    HasRelMap y := by
  rcases hv : dictGet src rel.source_field with _ | v
  · simp only [applyRelToDoc, hv, Except.ok.injEq] at hy
    rw [← hy]
    exact h
  · rcases ha : v.asArr with _ | vs
    · by_cases hh : v.hashable
      · rcases hl : pyMapLookup m v with _ | t
        · simp only [applyRelToDoc, hv, ha, hh, if_true, hl,
            Except.ok.injEq] at hy
          rw [← hy]
          exact h
        · simp only [applyRelToDoc, hv, ha, hh, if_true, hl,
            Except.ok.injEq] at hy
          rw [← hy]
          exact hasRelMap_setRel rdoc _ _ h
      · simp [applyRelToDoc, hv, ha, hh] at hy
    · by_cases hh : vs.all (fun w => w.hashable)
      · simp only [applyRelToDoc, hv, ha, hh, if_true,
          Except.ok.injEq] at hy
        rw [← hy]
        exact hasRelMap_setRel rdoc _ _ h
      · simp [applyRelToDoc, hv, ha, hh] at hy

theorem pyMapLookup_eq_some (m : List (Value × Doc)) (v : Value) (t : Doc)
    (h : pyMapLookup m v = some t) : (v, t) ∈ m := by
  unfold pyMapLookup at h
  rcases hf : m.reverse.find? (fun p => p.1 = v) with _ | p
  · rw [hf] at h; cases h
  · rw [hf] at h
    have hp := List.find?_some hf
    have hmem := List.mem_of_find?_eq_some hf
    simp only [decide_eq_true_eq] at hp
    simp only [Option.map_some', Option.some.injEq] at h
    rw [List.mem_reverse] at hmem
    have : p = (v, t) := by
      cases p
      simp only at hp h
      rw [hp, h]
    rw [this] at hmem
    exact hmem

theorem pyMapLookup_eq_none (m : List (Value × Doc)) (v : Value)
    (h : pyMapLookup m v = none) : ∀ p ∈ m, p.1 ≠ v := by
  unfold pyMapLookup at h
  rcases hf : m.reverse.find? (fun p => p.1 = v) with _ | p
  · intro p hp
    have := List.find?_eq_none.mp hf p (List.mem_reverse.mpr hp)
    simpa using this
  · rw [hf] at h; cases h

theorem mem_buildRelatedPairs (ds : List Doc) (tf : String) (v : Value)
    (t : Doc) :
    (v, t) ∈ buildRelatedPairs ds tf ↔ t ∈ ds ∧ dictGet t tf = some v := by
  unfold buildRelatedPairs
  rw [List.mem_filterMap]
  constructor
  · rintro ⟨d, hd, hmap⟩
    rcases hg : dictGet d tf with _ | w
    · rw [hg] at hmap; cases hmap
    · rw [hg] at hmap
      simp only [Option.map_some', Option.some.injEq, Prod.mk.injEq] at hmap
      obtain ⟨hv, hdt⟩ := hmap
      subst hdt
      exact ⟨hd, by rw [hg, hv]⟩
  · rintro ⟨ht, hg⟩
    exact ⟨t, ht, by rw [hg]; rfl⟩

theorem mem_fetchRelated (db : String → List Doc) (documents : List Doc)
    (rel : Relationship) (t : Doc) (h : t ∈ fetchRelated db documents rel) :
    t ∈ db rel.target_collection := by
  unfold fetchRelated at h
  have := List.take_subset _ _ h
  exact (List.mem_filter.mp this).1

theorem asArr_eq_some (v : Value) (vs : List Value) :
    v.asArr = some vs ↔ v = .varr vs := by
  cases v <;> simp [Value.asArr]

/-- Contract of one resolved `_relationships[source_field]` entry for
one input document: absent when the source field is absent; for an
array-valued source, when present, a list whose members are all
documents of the target collection whose target field carries one of
the source array's values; for a scalar source, either absent with no
fetched target matching, or the single matching target-collection
document. -/
def C10Prop (db : String → List Doc) (documents : List Doc)
    (rel : Relationship) (src : Doc) (entry : Option Value) : Prop :=
  (dictGet src rel.source_field = none → entry = none)
  ∧ (∀ vs, dictGet src rel.source_field = some (.varr vs) →
      entry = none
        ∨ ∃ l, entry = some (.varr l)
            ∧ ∀ e ∈ l, ∃ t, t ∈ db rel.target_collection ∧ e = .vdoc t
                ∧ ∃ w, dictGet t rel.target_field = some w ∧ w ∈ vs)
  ∧ (∀ v, dictGet src rel.source_field = some v → v.asArr = none →
      (entry = none
          ∧ ∀ t ∈ fetchRelated db documents rel,
              dictGet t rel.target_field ≠ some v)
        ∨ ∃ t, t ∈ db rel.target_collection ∧ entry = some (.vdoc t)
            ∧ dictGet t rel.target_field = some v)

theorem applyRelAll_getElem (m : List (Value × Doc)) (rel : Relationship) :
    ∀ (srcs curs res : List Doc),
      applyRelAll m rel srcs curs = .ok res →
      ∀ (j : Nat) (y : Doc), res[j]? = some y →
        ∃ s y0, srcs[j]? = some s ∧ curs[j]? = some y0
          ∧ applyRelToDoc m rel s y0 = .ok y := by
  intro srcs
  induction srcs with
  | nil =>
      intro curs res hok j y hy
      have hres : ([] : List Doc) = res := Except.ok.inj hok
      rw [← hres] at hy
      simp at hy
  | cons s ss ih =>
      intro curs res hok j y hy
      cases curs with
      | nil =>
          have hres : ([] : List Doc) = res := Except.ok.inj hok
          rw [← hres] at hy
          simp at hy
      | cons y0 rs =>
          rcases hd : applyRelToDoc m rel s y0 with e | d
          · have hcon : applyRelAll m rel (s :: ss) (y0 :: rs) = .error e := by
              simp [applyRelAll, hd]
            rw [hcon] at hok
            exact Except.noConfusion hok
          · rcases htl : applyRelAll m rel ss rs with e | ds
            · have hcon : applyRelAll m rel (s :: ss) (y0 :: rs)
                  = .error e := by
                simp [applyRelAll, hd, htl]
              rw [hcon] at hok
              exact Except.noConfusion hok
            · have hres : applyRelAll m rel (s :: ss) (y0 :: rs)
                  = .ok (d :: ds) := by
                simp [applyRelAll, hd, htl]
              rw [hres] at hok
              have hlist : d :: ds = res := Except.ok.inj hok
              rw [← hlist] at hy
              cases j with
              | zero =>
                  simp only [List.getElem?_cons_zero, Option.some.injEq] at hy
                  exact ⟨s, y0, by simp, by simp, hy ▸ hd⟩
              | succ j2 =>
                  simp only [List.getElem?_cons_succ] at hy ⊢
                  exact ih rs ds htl j2 y hy

theorem step_getElem (db : String → List Doc) (documents : List Doc)
    (r : Relationship) (cur cur2 : List Doc)
    (hok : (resolveBatchStep db documents cur r).1 = .ok cur2)
    (j : Nat) (y : Doc) (hy : cur2[j]? = some y) :
    (cur[j]? = some y ∧ refValuesOf documents r = [])
      ∨ ∃ s y0, documents[j]? = some s ∧ cur[j]? = some y0
          ∧ applyRelToDoc
              (buildRelatedPairs (fetchRelated db documents r) r.target_field)
              r s y0 = .ok y := by
  by_cases hr : refValuesOf documents r = []
  · left
    have hid : (resolveBatchStep db documents cur r).1 = .ok cur := by
      simp [resolveBatchStep, hr]
    rw [hid] at hok
    have hcur : cur = cur2 := Except.ok.inj hok
    rw [hcur]
    exact ⟨hy, hr⟩
  · right
    have hall : applyRelAll
        (buildRelatedPairs (fetchRelated db documents r) r.target_field)
        r documents cur = .ok cur2 := by
      have hdef : (resolveBatchStep db documents cur r).1
          = applyRelAll (buildRelatedPairs (fetchRelated db documents r)
              r.target_field) r documents cur := by
        simp [resolveBatchStep, hr]
      rw [← hdef]
      exact hok
    exact applyRelAll_getElem _ r documents cur cur2 hall j y hy

theorem getRelEntry_loop_preserved (db : String → List Doc)
    (documents : List Doc) (sf : String) :
    ∀ (rels : List Relationship) (cur : List Doc) (c : Nat)
      (res : List Doc),
      (∀ r' ∈ rels, r'.source_field ≠ sf) →
      (resolveBatchLoop db documents rels cur c).1 = .ok res →
      ∀ (i : Nat) (x' : Doc), res[i]? = some x' →
        ∃ x, cur[i]? = some x ∧ getRelEntry x' sf = getRelEntry x sf := by
  intro rels
  induction rels with
  | nil =>
      intro cur c res _ hok i x' hx'
      have hcur : cur = res := Except.ok.inj hok
      exact ⟨x', by rw [hcur]; exact hx', rfl⟩
  | cons r rs ih =>
      intro cur c res hne hok i x' hx'
      rw [resolveBatchLoop_cons] at hok
      rcases hst : (resolveBatchStep db documents cur r).1 with e | cur2
      · rw [hst] at hok
        exact Except.noConfusion
          (show Except.error e = Except.ok res from hok)
      · rw [hst] at hok
        have hok2 : (resolveBatchLoop db documents rs cur2
            (c + (resolveBatchStep db documents cur r).2)).1
            = Except.ok res := hok
        obtain ⟨x1, hx1, hent⟩ := ih cur2 _ res
          (fun r' hr' => hne r' (List.mem_cons_of_mem _ hr')) hok2 i x' hx'
        rcases step_getElem db documents r cur cur2 hst i x1 hx1 with
          ⟨hc, _⟩ | ⟨s, y0, _, hc, happ⟩
        · exact ⟨x1, hc, hent⟩
        · refine ⟨y0, hc, ?_⟩
          rw [hent]
          exact getRelEntry_applyRelToDoc_ne _ r s y0 x1 happ sf
            (Ne.symm (hne r (List.mem_cons_self r rs)))

theorem c10_step_establish (db : String → List Doc) (documents : List Doc)
    (rel : Relationship) (cur cur2 : List Doc)
    (hok : (resolveBatchStep db documents cur rel).1 = .ok cur2)
    (hwf : ∀ (i : Nat) (x : Doc), cur[i]? = some x → HasRelMap x)
    (hnone : ∀ (i : Nat) (x : Doc), cur[i]? = some x →
      getRelEntry x rel.source_field = none) :
    ∀ (i : Nat) (x' src : Doc),
      cur2[i]? = some x' →
      documents[i]? = some src →
      C10Prop db documents rel src (getRelEntry x' rel.source_field) := by
  intro i x' src hx' hsrc
  rcases step_getElem db documents rel cur cur2 hok i x' hx' with
    ⟨hc, hr⟩ | ⟨s, y0, hd, hc, happ⟩
  · -- skipped step: the entry is still absent
    rw [hnone i x' hc]
    refine ⟨fun _ => rfl, fun vs _ => Or.inl rfl, fun v hv hva => ?_⟩
    exfalso
    have hmem : src ∈ documents := List.getElem?_mem hsrc
    have hcarry : carriesRef src rel = true := by simp [carriesRef, hv, hva]
    have hall := (specRefValues_nil_iff rel documents).mp
      (by rw [← refValuesOf_eq_spec]; exact hr)
    rw [hall src hmem] at hcarry
    cases hcarry
  · -- executed step
    have hs : s = src := by rw [hd] at hsrc; exact (Option.some.injEq _ _).mp hsrc
    subst hs
    have hwfx := hwf i y0 hc
    have hn := hnone i y0 hc
    rcases hv : dictGet s rel.source_field with _ | v
    · have hxx : y0 = x' := by
        simp only [applyRelToDoc, hv, Except.ok.injEq] at happ
        exact happ
      rw [← hxx, hn]
      refine ⟨fun _ => rfl, fun vs _ => Or.inl rfl, fun v hv2 _ => ?_⟩
      rw [hv] at hv2; cases hv2
    · rcases ha : v.asArr with _ | vs
      · -- scalar reference value
        by_cases hh : v.hashable
        · rcases hl : pyMapLookup
              (buildRelatedPairs (fetchRelated db documents rel)
                rel.target_field) v with _ | t
          · have hxx : y0 = x' := by
              simp only [applyRelToDoc, hv, ha, hh, if_true, hl,
                Except.ok.injEq] at happ
              exact happ
            rw [← hxx, hn]
            refine ⟨fun _ => rfl, fun vs2 _ => Or.inl rfl, fun v2 hv2 hva2 => ?_⟩
            have hvv : v2 = v := by
              rw [hv] at hv2
              exact ((Option.some.injEq _ _).mp hv2).symm
            subst hvv
            refine Or.inl ⟨rfl, fun t ht hget => ?_⟩
            have hpair : (v2, t) ∈ buildRelatedPairs
                (fetchRelated db documents rel) rel.target_field :=
              (mem_buildRelatedPairs _ _ _ _).mpr ⟨ht, hget⟩
            exact pyMapLookup_eq_none _ _ hl (v2, t) hpair rfl
          · have hxx : setRel y0 rel.source_field (.vdoc t) = x' := by
              simp only [applyRelToDoc, hv, ha, hh, if_true, hl,
                Except.ok.injEq] at happ
              exact happ
            have hent : getRelEntry x' rel.source_field = some (.vdoc t) := by
              rw [← hxx]; exact getRelEntry_setRel_self y0 _ _ hwfx
            rw [hent]
            have hpair := pyMapLookup_eq_some _ _ _ hl
            have hmemfetch := (mem_buildRelatedPairs _ _ _ _).mp hpair
            refine ⟨fun h2 => ?_, fun vs2 hvs2 => ?_, fun v2 hv2 hva2 => ?_⟩
            · rw [hv] at h2; cases h2
            · exfalso
              rw [hv] at hvs2
              have : v = Value.varr vs2 := (Option.some.injEq _ _).mp hvs2
              rw [this] at ha
              simp [Value.asArr] at ha
            · have hvv : v2 = v := by
                rw [hv] at hv2
                exact ((Option.some.injEq _ _).mp hv2).symm
              subst hvv
              exact Or.inr ⟨t, mem_fetchRelated db documents rel t hmemfetch.1,
                rfl, hmemfetch.2⟩
        · simp [applyRelToDoc, hv, ha, hh] at happ
      · -- array reference value
        by_cases hh : vs.all (fun w => w.hashable)
        · have hveq : v = Value.varr vs := (asArr_eq_some v vs).mp ha
          have hxx : setRel y0 rel.source_field
              (.varr (vs.filterMap (fun w =>
                (pyMapLookup (buildRelatedPairs (fetchRelated db documents rel)
                  rel.target_field) w).map Value.vdoc))) = x' := by
            simp only [applyRelToDoc, hv, ha, hh, if_true,
              Except.ok.injEq] at happ
            exact happ
          have hent := getRelEntry_setRel_self y0 rel.source_field
            (.varr (vs.filterMap (fun w =>
              (pyMapLookup (buildRelatedPairs (fetchRelated db documents rel)
                rel.target_field) w).map Value.vdoc))) hwfx
          rw [← hxx, hent]
          refine ⟨fun h2 => ?_, fun vs2 hvs2 => ?_, fun v2 hv2 hva2 => ?_⟩
          · rw [hv] at h2; cases h2
          · refine Or.inr ⟨_, rfl, fun e he => ?_⟩
            have hvs : vs2 = vs := by
              rw [hv, hveq] at hvs2
              have := (Option.some.injEq _ _).mp hvs2
              exact (Value.varr.inj this).symm
            subst hvs
            obtain ⟨w, hw, hmap⟩ := List.mem_filterMap.mp he
            rcases hlw : pyMapLookup (buildRelatedPairs
                (fetchRelated db documents rel) rel.target_field) w with _ | t
            · rw [hlw] at hmap; cases hmap
            · rw [hlw] at hmap
              simp only [Option.map_some', Option.some.injEq] at hmap
              have hpair := pyMapLookup_eq_some _ _ _ hlw
              have hmemfetch := (mem_buildRelatedPairs _ _ _ _).mp hpair
              exact ⟨t, mem_fetchRelated db documents rel t hmemfetch.1,
                hmap.symm, w, hmemfetch.2, hw⟩
          · exfalso
            rw [hv] at hv2
            have : v2 = v := ((Option.some.injEq _ _).mp hv2).symm
            rw [this, ha] at hva2
            cases hva2
        · simp [applyRelToDoc, hv, ha, hh] at happ

theorem c10_loop (db : String → List Doc) (documents : List Doc) :
    ∀ (rels : List Relationship) (cur : List Doc) (c : Nat)
      (res : List Doc) (rel : Relationship),
      (rels.map Relationship.source_field).Nodup →
      rel ∈ rels →
      (∀ (i : Nat) (x : Doc), cur[i]? = some x → HasRelMap x) →
      (∀ (i : Nat) (x : Doc), cur[i]? = some x →
        getRelEntry x rel.source_field = none) →
      (resolveBatchLoop db documents rels cur c).1 = .ok res →
      ∀ (i : Nat) (x src : Doc),
        res[i]? = some x →
        documents[i]? = some src →
        C10Prop db documents rel src (getRelEntry x rel.source_field) := by
  intro rels
  induction rels with
  | nil => intro cur c res rel _ hmem; cases hmem
  | cons r rs ih =>
      intro cur c res rel hnd hmem hwf hnone hok i x src hx hsrc
      have hnd' := List.nodup_cons.mp hnd
      rw [resolveBatchLoop_cons] at hok
      rcases hst : (resolveBatchStep db documents cur r).1 with e | cur2
      · rw [hst] at hok
        exact Except.noConfusion
          (show Except.error e = Except.ok res from hok)
      · rw [hst] at hok
        have hok2 : (resolveBatchLoop db documents rs cur2
            (c + (resolveBatchStep db documents cur r).2)).1
            = Except.ok res := hok
        rcases List.mem_cons.mp hmem with heq | hmem2
        · subst heq
          obtain ⟨x1, hx1, hent⟩ :=
            getRelEntry_loop_preserved db documents rel.source_field rs
              cur2 _ res
              (fun r' hr' hcontra =>
                hnd'.1 (hcontra ▸ List.mem_map_of_mem Relationship.source_field hr'))
              hok2 i x hx
          rw [hent]
          exact c10_step_establish db documents rel cur cur2 hst hwf hnone
            i x1 src hx1 hsrc
        · have hsfne : rel.source_field ≠ r.source_field := by
            intro hcontra
            exact hnd'.1 (hcontra ▸ List.mem_map_of_mem Relationship.source_field hmem2)
          refine ih cur2 _ res rel hnd'.2 hmem2 ?_ ?_ hok2 i x src hx hsrc
          · intro j y hy
            rcases step_getElem db documents r cur cur2 hst j y hy with
              ⟨hc, _⟩ | ⟨s, y0, _, hc, happ⟩
            · exact hwf j y hc
            · exact hasRelMap_applyRelToDoc _ r s y0 y happ (hwf j y0 hc)
          · intro j y hy
            rcases step_getElem db documents r cur cur2 hst j y hy with
              ⟨hc, _⟩ | ⟨s, y0, _, hc, happ⟩
            · exact hnone j y hc
            · rw [getRelEntry_applyRelToDoc_ne _ r s y0 y happ
                rel.source_field hsfne]
              exact hnone j y0 hc

/-- C10 counterexample: for an EMBEDDED relationship on source field
`a`, the single document `{a: {x: 1}}` carries the canonical inline
embedded payload — a dict; the membership test `ref_val in related_map`
hashes it and raises `TypeError`, so `resolve_batch` returns no
document list at all, while the claim asserts an entry contract of the
returned documents for every input document, EMBEDDED included. -/
theorem c10_embedded_counterexample :
    (resolve_batch (fun _ => [])
        [[("a", Value.vdoc [("x", Value.vint 1)])]]
        [{ source_collection := "c", source_field := "a",
           target_collection := "as",
           type := RelationshipType.embedded }] 1).1 = Except.error ()
      ∧ carriesRef [("a", Value.vdoc [("x", Value.vint 1)])]
          { source_collection := "c", source_field := "a",
            target_collection := "as",
            type := RelationshipType.embedded } = true :=
  ⟨rfl, rfl⟩

/-- C10 amended: on every run of `resolve_batch` that returns — no
unhashable reference value (a dict, or an array holding a dict or
array) aborted the assignment loop with a `TypeError` — with distinct
source fields, for every input document and every relationship (its
type unconstrained, EMBEDDED included, since the type tag is never
inspected) the `_relationships[source_field]` entry obeys `C10Prop`:
when present it holds only documents fetched from the relationship's
target collection matched on the target field (a list mirroring an
array-valued source, a single document otherwise), it is absent when a
scalar reference matches no fetched target, and the inline source value
itself is never placed there. -/
theorem c10_batch_relationship_entries (db : String → List Doc)
    (documents : List Doc) (rels : List Relationship) (rel : Relationship)
    (i : Nat)
    (hnd : (rels.map Relationship.source_field).Nodup)
    (hmem : rel ∈ rels)
    (res : List Doc)
    (hok : (resolve_batch db documents rels 1).1 = Except.ok res) :
    ∀ x src, res[i]? = some x →
      documents[i]? = some src →
      C10Prop db documents rel src (getRelEntry x rel.source_field) := by
  intro x src hx hsrc
  by_cases hdocs : documents = []
  · subst hdocs; simp at hsrc
  · unfold resolve_batch at hok
    rw [if_neg (by simp [hdocs])] at hok
    refine c10_loop db documents rels
      (documents.map (fun d => dictSet d "_relationships" (.vdoc []))) 0
      res rel hnd hmem ?_ ?_ hok i x src hx hsrc
    · intro j y hy
      rw [List.getElem?_map] at hy
      rcases hd : documents[j]? with _ | d
      · rw [hd] at hy; cases hy
      · rw [hd] at hy
        simp only [Option.map_some', Option.some.injEq] at hy
        exact ⟨[], by rw [← hy]; exact dictGet_dictSet_self d _ _⟩
    · intro j y hy
      rw [List.getElem?_map] at hy
      rcases hd : documents[j]? with _ | d
      · rw [hd] at hy; cases hy
      · rw [hd] at hy
        simp only [Option.map_some', Option.some.injEq] at hy
        rw [← hy]
        unfold getRelEntry
        rw [dictGet_dictSet_self]
        rfl

/-- Concrete store for the C10 witness: one `users` document. -/
def dbW : String → List Doc := fun c =>
  if c = "users" then [[("_id", Value.oid 1), ("name", Value.vstr "u")]]
  else []

/-- Concrete input batch for the C10 witness. -/
def documentsW : List Doc := [[("user_id", Value.oid 1)]]

/-- Concrete relationship for the C10 witness. -/
def relW : Relationship :=
  { source_collection := "orders", source_field := "user_id",
    target_collection := "users" }

/-- C10 witness: the entry contract applied at a concrete store, batch
and relationship whose run returns, discharging the distinctness,
membership, completed-run and indexing hypotheses. -/
theorem c10_batch_relationship_entries_witness :
    (([relW].map Relationship.source_field).Nodup)
      ∧ relW ∈ [relW]
      ∧ (resolve_batch dbW documentsW [relW] 1).1
          = Except.ok
              [[("user_id", Value.oid 1),
                ("_relationships",
                 Value.vdoc [("user_id",
                   Value.vdoc [("_id", Value.oid 1),
                     ("name", Value.vstr "u")])])]]
      ∧ C10Prop dbW documentsW relW [("user_id", Value.oid 1)]
          (getRelEntry
            [("user_id", Value.oid 1),
             ("_relationships",
              Value.vdoc [("user_id",
                Value.vdoc [("_id", Value.oid 1), ("name", Value.vstr "u")])])]
            relW.source_field) :=
  ⟨by simp, by simp, rfl,
    c10_batch_relationship_entries dbW documentsW [relW] relW 0
      (by simp) (by simp)
      [[("user_id", Value.oid 1),
        ("_relationships",
         Value.vdoc [("user_id",
           Value.vdoc [("_id", Value.oid 1), ("name", Value.vstr "u")])])]]
      rfl
      [("user_id", Value.oid 1),
       ("_relationships",
        Value.vdoc [("user_id",
          Value.vdoc [("_id", Value.oid 1), ("name", Value.vstr "u")])])]
      [("user_id", Value.oid 1)] rfl rfl⟩

/-- Python truthiness of a value, as tested by `if cursor:`; the
`vbin` payload 0 denotes the empty (falsy) bytes object `b""`, any
other payload a non-empty one. -/
def Value.truthy : Value → Bool
  | .vnull => false
  | .vbool b => b
  | .vint n => !(n == 0)
  | .vfloat p => !(p == 0)
  | .vstr s => !(s == "")
  | .varr l => !l.isEmpty
  | .vdoc m => !m.isEmpty
  | .vbin p => !(p == 0)
  | _ => true

/-- Parse of the incoming cursor by `ObjectId(cursor)` with a blanket
`except`: a valid 24-hex string becomes an ObjectId, anything else is
kept as-is. -/
def parseCursor : Value → Value
  | .vstr s => if isValidOidString s then .oid (oidOfString s) else .vstr s
  | v => v

/-- Hex digit character for a value below 16. -/
def hexDigit (n : Nat) : Char :=
  if n < 10 then Char.ofNat ('0'.toNat + n)
  else Char.ofNat ('a'.toNat + (n - 10))

/-- The 24-hex-character string form of an ObjectId payload,
`str(ObjectId)`. -/
def natToHex24 (n : Nat) : String :=
  ⟨(List.range 24).map (fun i => hexDigit (n / 16 ^ (23 - i) % 16))⟩

/-- Outgoing cursor conversion: ObjectIds are stringified, every other
value is passed through unchanged. -/
def stringifyCursor : Value → Value
  | .oid n => .vstr (natToHex24 n)
  | v => v

/-- Strict less-than on values for the `$gt`/`$lt` continuation
predicate, for same-type scalar values; BSON cross-type ordering is not
used by the claims under verification and is not modelled (cross-type
comparisons are false). -/
def Value.ltv : Value → Value → Bool
  | .vint a, .vint b => a < b
  | .vfloat a, .vfloat b => a < b
  | .vstr a, .vstr b => a < b
  | .oid a, .oid b => a < b
  | .vdatetime a, .vdatetime b => a < b
  | .vdate a, .vdate b => a < b
  | .vbool a, .vbool b => !a && b
  | _, _ => false

/-- A MongoDB query condition on a single field, enough to express the
filters `paginate_cursor` reads and writes: direct equality and the
`$gt`/`$lt` operator documents. -/
inductive QCond where
  | eqv (v : Value)
  | gt (v : Value)
  | lt (v : Value)
deriving DecidableEq, Repr

/-- A MongoDB filter document: field names mapped to their conditions,
with the unique keys of a Python dict. -/
abbrev Query := List (String × QCond)

/-- Satisfaction of one condition by a field value. -/
def QCond.holds : QCond → Value → Bool
  | .eqv w, v => decide (v = w)
  | .gt w, v => Value.ltv w v
  | .lt w, v => Value.ltv v w

/-- Match of a document against a filter: every conditioned field is
present and satisfies its condition. -/
def matchesQ (q : Query) (d : Doc) : Bool :=
  match q with
  | [] => true
  | e :: rest =>
      (match dictGet d e.1 with
       | some v => e.2.holds v
       | none => false) && matchesQ rest d

/-- Python dict assignment `cursor_query[sort_field] = cond`: replace
the existing binding in place or append a new one — any condition the
base query placed on the sort field is lost. -/
def qSet (q : Query) (k : String) (c : QCond) : Query :=
  match q with
  | [] => [(k, c)]
  | (k2, c2) :: rest =>
      if k2 = k then (k, c) :: rest else (k2, c2) :: qSet rest k c

/-- Result shape of `PaginationHandler.paginate_cursor`. -/
structure CursorPage where
  items : List Doc
  per_page : Int
  has_next : Bool
  next_cursor : Option Value
  sort_field : String
deriving DecidableEq, Repr

/-- The `cursor_query` built by `paginate_cursor`: a truthy cursor is
parsed by `ObjectId(cursor)` with fallback and written over the sort
field as a strict `$gt` (`sort_direction >= 0`) or `$lt` condition,
replacing any condition the base query had there; a falsy or absent
cursor leaves the copied query untouched. -/
def cursorQuery (query : Query) (cursor : Option Value)
    (sort_field : String) (sort_direction : Int) : Query :=
  match cursor with
  | some cv =>
      if cv.truthy then
        if sort_direction ≥ 0 then
          qSet query sort_field (.gt (parseCursor cv))
        else
          qSet query sort_field (.lt (parseCursor cv))
      else query
  | none => query

/-- The rows `find(cursor_query).sort(sort_field, sort_direction)`
yields: `sortedColl` is the collection already sorted on the sort field
in the requested direction, so filtering it is order-equivalent to the
code's filter-then-sort. -/
def cursorFiltered (sortedColl : List Doc) (query : Query)
    (cursor : Option Value) (sort_field : String)
    (sort_direction : Int) : List Doc :=
  sortedColl.filter
    (matchesQ (cursorQuery query cursor sort_field sort_direction))

/-- The `PaginationHandler.paginate_cursor` flow: clamp `per_page` to
`[1, 100]`; build the cursor query (a truthy cursor overwrites the sort
field's condition); fetch `per_page + 1` rows; report a further page
when the extra row came back; truncate to `per_page`; and emit the last
item's sort-field value as the next cursor — `last_item.get` renders an
explicit null indistinguishable from an absent field, so both yield no
cursor, and ObjectIds are stringified. -/
def paginate_cursor (sortedColl : List Doc) (query : Query)
    (cursor : Option Value) (per_page : Int) (sort_field : String)
    (sort_direction : Int) : CursorPage :=
  let pp := max 1 (min per_page 100)
  let ppn := pp.toNat
  let filtered := cursorFiltered sortedColl query cursor sort_field
    sort_direction
  let items0 := filtered.take (ppn + 1)
  let items := if items0.length > ppn then items0.take ppn else items0
  let next_cursor : Option Value :=
    if items0.length > ppn ∧ items ≠ [] then
      (items.getLast?).bind (fun last =>
        match dictGet last sort_field with
        | some Value.vnull => none
        | some v => some (stringifyCursor v)
        | none => none)
    else none
  { items := items, per_page := pp,
    has_next := decide (items0.length > ppn),
    next_cursor := next_cursor, sort_field := sort_field }

/-- C8 counterexample: with an integer sort field that totally orders
the documents (keys 0 < 1), an empty base query and `per_page = 1`, the
first page ends on sort value 0, so the emitted cursor is the falsy
value 0; supplying it back disables the continuation condition
(`if cursor:`) and the second page returns the very same first
document — successive pages overlap. -/
theorem c8_cursor_pages_can_overlap :
    (paginate_cursor [[("k", Value.vint 0)], [("k", Value.vint 1)]]
        [] none 1 "k" 1).next_cursor = some (Value.vint 0)
      ∧ (paginate_cursor [[("k", Value.vint 0)], [("k", Value.vint 1)]]
          [] none 1 "k" 1).items = [[("k", Value.vint 0)]]
      ∧ (paginate_cursor [[("k", Value.vint 0)], [("k", Value.vint 1)]]
          [] (some (Value.vint 0)) 1 "k" 1).items = [[("k", Value.vint 0)]]
      ∧ (0 : Int) < 1 := by
  refine ⟨?_, ?_, ?_, by decide⟩ <;> rfl

/-- The integer sort key of a document (0 when absent or non-integer;
the theorems only use it under a hypothesis that every document carries
an integer sort value). -/
def intKey (sf : String) (d : Doc) : Int :=
  match dictGet d sf with
  | some (.vint k) => k
  | _ => 0

theorem pc_items (sm : List Doc) (q : Query) (cursor : Option Value)
    (p : Int) (sf : String) (dir : Int) (hp1 : 1 ≤ p) (hp100 : p ≤ 100) :
    (paginate_cursor sm q cursor p sf dir).items
      = (cursorFiltered sm q cursor sf dir).take p.toNat := by
  have hclamp : max 1 (min p 100) = p := by omega
  simp only [paginate_cursor, hclamp]
  by_cases h : p.toNat < (cursorFiltered sm q cursor sf dir).length
  · rw [if_pos (by simp [List.length_take]; omega)]
    rw [List.take_take]
    congr 1
    omega
  · rw [if_neg (by simp [List.length_take]; omega)]
    have hle : (cursorFiltered sm q cursor sf dir).length ≤ p.toNat := by
      omega
    rw [List.take_of_length_le hle, List.take_of_length_le (by omega)]

theorem pc_has_next (sm : List Doc) (q : Query) (cursor : Option Value)
    (p : Int) (sf : String) (dir : Int) (hp1 : 1 ≤ p) (hp100 : p ≤ 100) :
    (paginate_cursor sm q cursor p sf dir).has_next
      = decide (p.toNat < (cursorFiltered sm q cursor sf dir).length) := by
  have hclamp : max 1 (min p 100) = p := by omega
  simp only [paginate_cursor, hclamp]
  by_cases h : p.toNat < (cursorFiltered sm q cursor sf dir).length
  · rw [decide_eq_true (by simp [List.length_take]; omega),
      decide_eq_true h]
  · rw [decide_eq_false (by simp [List.length_take]; omega),
      decide_eq_false h]

theorem pc_next_cursor (sm : List Doc) (q : Query) (cursor : Option Value)
    (p : Int) (sf : String) (dir : Int) (hp1 : 1 ≤ p) (hp100 : p ≤ 100)
    (h : p.toNat < (cursorFiltered sm q cursor sf dir).length) :
    (paginate_cursor sm q cursor p sf dir).next_cursor
      = (((cursorFiltered sm q cursor sf dir).take p.toNat).getLast?).bind
          (fun last =>
            match dictGet last sf with
            | some Value.vnull => none
            | some v => some (stringifyCursor v)
            | none => none) := by
  have hclamp : max 1 (min p 100) = p := by omega
  have hpn : 1 ≤ p.toNat := by omega
  simp only [paginate_cursor, hclamp]
  have hcond1 : ((cursorFiltered sm q cursor sf dir).take (p.toNat + 1)).length
      > p.toNat := by
    simp [List.length_take]; omega
  have hitems : (if ((cursorFiltered sm q cursor sf dir).take
        (p.toNat + 1)).length > p.toNat then
      ((cursorFiltered sm q cursor sf dir).take (p.toNat + 1)).take p.toNat
    else (cursorFiltered sm q cursor sf dir).take (p.toNat + 1))
      = (cursorFiltered sm q cursor sf dir).take p.toNat := by
    rw [if_pos hcond1, List.take_take]
    congr 1
    omega
  rw [hitems]
  rw [if_pos ⟨hcond1,
    List.ne_nil_of_length_pos (by simp [List.length_take]; omega)⟩]

theorem pc_next_cursor_none (sm : List Doc) (q : Query)
    (cursor : Option Value) (p : Int) (sf : String) (dir : Int)
    (hp1 : 1 ≤ p) (hp100 : p ≤ 100)
    (h : ¬ p.toNat < (cursorFiltered sm q cursor sf dir).length) :
    (paginate_cursor sm q cursor p sf dir).next_cursor = none := by
  have hclamp : max 1 (min p 100) = p := by omega
  simp only [paginate_cursor, hclamp]
  rw [if_neg]
  rintro ⟨h1, _⟩
  rw [List.length_take] at h1
  omega

theorem cursorFiltered_none (sm : List Doc) (q : Query) (sf : String)
    (dir : Int) :
    cursorFiltered sm q none sf dir = sm.filter (matchesQ q) := rfl

theorem matchesQ_qSet (sf : String) (c : QCond) (d : Doc) :
    ∀ (q : Query), (q.map Prod.fst).Nodup →
      matchesQ (qSet q sf c) d
        = ((matchesQ (q.filter (fun e => !(e.1 == sf))) d)
            && (match dictGet d sf with
                | some v => c.holds v
                | none => false)) := by
  intro q
  induction q with
  | nil =>
      intro _
      rcases hdg : dictGet d sf with _ | v <;>
        simp [qSet, matchesQ, hdg]
  | cons e rest ih =>
      intro hnd
      obtain ⟨k2, c2⟩ := e
      rw [List.map_cons, List.nodup_cons] at hnd
      by_cases hk : k2 = sf
      · subst hk
        have hrest : rest.filter (fun e => !(e.1 == k2)) = rest := by
          apply List.filter_eq_self.mpr
          intro e he
          have hne : e.1 ≠ k2 := by
            intro hcontra
            apply hnd.1
            have hm2 : e.1 ∈ List.map Prod.fst rest :=
              List.mem_map_of_mem Prod.fst he
            rw [hcontra] at hm2
            exact hm2
          simp [hne]
        rw [show qSet ((k2, c2) :: rest) k2 c = (k2, c) :: rest from by
          simp [qSet]]
        rw [show ((k2, c2) :: rest).filter (fun e => !(e.1 == k2))
            = rest.filter (fun e => !(e.1 == k2)) from by
          simp [List.filter_cons]]
        rw [hrest]
        rcases hdg : dictGet d k2 with _ | v <;>
          simp [matchesQ, hdg, Bool.and_comm]
      · rw [show qSet ((k2, c2) :: rest) sf c
            = (k2, c2) :: qSet rest sf c from by simp [qSet, hk]]
        rw [show ((k2, c2) :: rest).filter (fun e => !(e.1 == sf))
            = (k2, c2) :: rest.filter (fun e => !(e.1 == sf)) from by
          simp [List.filter_cons, hk]]
        rw [show matchesQ ((k2, c2) :: qSet rest sf c) d
            = ((match dictGet d k2 with
                | some v => c2.holds v
                | none => false) && matchesQ (qSet rest sf c) d) from rfl]
        rw [show matchesQ ((k2, c2) :: rest.filter (fun e => !(e.1 == sf))) d
            = ((match dictGet d k2 with
                | some v => c2.holds v
                | none => false)
                && matchesQ (rest.filter (fun e => !(e.1 == sf))) d) from rfl]
        rw [ih hnd.2, Bool.and_assoc]

theorem cursorFiltered_int_asc (sm : List Doc) (q : Query) (sf : String)
    (c : Int) (hc : c ≠ 0) (dir : Int) (hdir : dir ≥ 0)
    (hq : (q.map Prod.fst).Nodup)
    (hkey : ∀ d ∈ sm, ∃ k : Int, dictGet d sf = some (.vint k)) :
    cursorFiltered sm q (some (.vint c)) sf dir
      = (sm.filter (matchesQ (q.filter (fun e => !(e.1 == sf))))).filter
          (fun d => decide (c < intKey sf d)) := by
  have ht : (Value.vint c).truthy = true := by simp [Value.truthy, hc]
  have h1 : cursorFiltered sm q (some (.vint c)) sf dir
      = sm.filter (matchesQ (qSet q sf (.gt (parseCursor (.vint c))))) := by
    simp [cursorFiltered, cursorQuery, ht, hdir]
  rw [h1, List.filter_filter]
  apply List.filter_congr
  intro d hd
  obtain ⟨k, hk⟩ := hkey d hd
  rw [matchesQ_qSet sf _ d q hq]
  simp [hk, parseCursor, QCond.holds, Value.ltv, intKey, Bool.and_comm]

theorem cursorFiltered_int_desc (sm : List Doc) (q : Query) (sf : String)
    (c : Int) (hc : c ≠ 0) (dir : Int) (hdir : ¬ dir ≥ 0)
    (hq : (q.map Prod.fst).Nodup)
    (hkey : ∀ d ∈ sm, ∃ k : Int, dictGet d sf = some (.vint k)) :
    cursorFiltered sm q (some (.vint c)) sf dir
      = (sm.filter (matchesQ (q.filter (fun e => !(e.1 == sf))))).filter
          (fun d => decide (intKey sf d < c)) := by
  have ht : (Value.vint c).truthy = true := by simp [Value.truthy, hc]
  have h1 : cursorFiltered sm q (some (.vint c)) sf dir
      = sm.filter (matchesQ (qSet q sf (.lt (parseCursor (.vint c))))) := by
    simp [cursorFiltered, cursorQuery, ht, hdir]
  rw [h1, List.filter_filter]
  apply List.filter_congr
  intro d hd
  obtain ⟨k, hk⟩ := hkey d hd
  rw [matchesQ_qSet sf _ d q hq]
  simp [hk, parseCursor, QCond.holds, Value.ltv, intKey, Bool.and_comm]

theorem sorted_filter_after (key : Doc → Int) (m : List Doc) (pp : Nat)
    (hpp : 0 < pp)
    (hs : List.Pairwise (fun d1 d2 => key d1 < key d2) m)
    (hlen : pp < m.length) (last : Doc)
    (hlast : (m.take pp).getLast? = some last) :
    m.filter (fun d => decide (key last < key d))
      = m.drop pp := by
  have hsplit := List.take_append_drop pp m
  have hs2 : List.Pairwise (fun d1 d2 => key d1 < key d2)
      (m.take pp ++ m.drop pp) := by rw [hsplit]; exact hs
  rw [List.pairwise_append] at hs2
  obtain ⟨hstake, _, hcross⟩ := hs2
  have htne : m.take pp ≠ [] := by
    apply List.ne_nil_of_length_pos
    simp [List.length_take]
    omega
  have hlast_eq : (m.take pp).getLast htne = last := by
    rw [List.getLast?_eq_getLast _ htne] at hlast
    exact (Option.some.injEq _ _).mp hlast.symm |>.symm
  have hlast_mem : last ∈ m.take pp := by
    rw [← hlast_eq]
    exact List.getLast_mem htne
  have hdecomp : (m.take pp).dropLast ++ [last] = m.take pp := by
    rw [← hlast_eq]
    exact List.dropLast_append_getLast htne
  have hbefore : ∀ d ∈ (m.take pp).dropLast, key d < key last := by
    have hp2 : List.Pairwise (fun d1 d2 => key d1 < key d2)
        ((m.take pp).dropLast ++ [last]) := by rw [hdecomp]; exact hstake
    rw [List.pairwise_append] at hp2
    intro d hd
    exact hp2.2.2 d hd last (List.mem_singleton_self last)
  conv_lhs => rw [← hsplit]
  rw [List.filter_append]
  have h1 : (m.take pp).filter
      (fun d => decide (key last < key d)) = [] := by
    rw [List.filter_eq_nil_iff]
    intro d hd
    rcases List.mem_append.mp (by rw [hdecomp]; exact hd) with hd1 | hd2
    · have := hbefore d hd1
      simp
      omega
    · have : d = last := List.mem_singleton.mp hd2
      subst this
      simp
  have h2 : (m.drop pp).filter
      (fun d => decide (key last < key d)) = m.drop pp := by
    rw [List.filter_eq_self]
    intro d hd
    simp
    exact hcross last hlast_mem d hd
  rw [h1, h2, List.nil_append]

theorem succession_core (key : Doc → Int) (l m : List Doc) (ppn : Nat)
    (hppn : 0 < ppn)
    (hsl : List.Pairwise (fun d1 d2 => key d1 < key d2) l)
    (hm : m = l ∨ ∃ c : Int,
      m = l.filter (fun d => decide (c < key d)))
    (hn : ppn < m.length) (last : Doc)
    (hlast : (m.take ppn).getLast? = some last) :
    l.filter (fun d => decide (key last < key d))
      = m.drop ppn := by
  have hsm : List.Pairwise (fun d1 d2 => key d1 < key d2) m := by
    rcases hm with rfl | ⟨c, rfl⟩
    · exact hsl
    · exact List.Pairwise.sublist (List.filter_sublist _) hsl
  have hcore := sorted_filter_after key m ppn hppn hsm hn last hlast
  rcases hm with rfl | ⟨c, rfl⟩
  · exact hcore
  · have htne : (l.filter (fun d => decide (c < key d))).take ppn
        ≠ [] := by
      apply List.ne_nil_of_length_pos
      rw [List.length_take]
      omega
    have hlast_mem : last ∈ l.filter (fun d => decide (c < key d)) := by
      have h1 : last ∈ (l.filter (fun d => decide (c < key d))).take ppn := by
        rw [List.getLast?_eq_getLast _ htne] at hlast
        have := (Option.some.injEq _ _).mp hlast
        rw [← this]
        exact List.getLast_mem htne
      exact List.mem_of_mem_take h1
    have hck : c < key last := by
      have := (List.mem_filter.mp hlast_mem).2
      simpa using this
    rw [← hcore, List.filter_filter]
    apply List.filter_congr
    intro d _
    by_cases hd : key last < key d
    · have : c < key d := lt_trans hck hd
      simp [hd, this]
    · simp [hd]

/-- C8 amended: with `per_page` in `[1, 100]`, either direction
(`1` ascending with the `>` continuation, `-1` descending with `<`),
an integer-valued sort field carrying pairwise strictly monotone values
in the direction's order (the claim's total-order premise), a base
query that places no condition on the sort field (the code's dict
assignment `cursor_query[sort_field] = ...` replaces any such
condition, so later pages would escape it), and a truthy cursor value
whenever a cursor is supplied, `paginate_cursor` behaves exactly as the
claim states: no cursor yields the first `per_page` matches in sorted
order, a cursor yields the strict continuation slice, `has_next`
reports a further page via the one extra fetched row without a count
query, the next cursor is the last returned item's sort-field value,
and consecutive pages concatenate to a contiguous slice — no overlap
and no skipped record.  The truthiness condition is forced by the
counterexample: a falsy cursor value (such as the integer 0) disables
the continuation filter. -/
theorem c8_cursor_pagination (l : List Doc) (q : Query) (sf : String)
    (p : Int) (c : Int) (dir : Int)
    (hdir : dir = 1 ∨ dir = -1)
    (hq : (q.map Prod.fst).Nodup)
    (hqsf : ∀ e ∈ q, e.1 ≠ sf)
    (hkey : ∀ d ∈ l, ∃ k : Int, dictGet d sf = some (.vint k))
    (hsorted : List.Pairwise (fun d1 d2 =>
      if 0 ≤ dir then intKey sf d1 < intKey sf d2
      else intKey sf d2 < intKey sf d1) l)
    (hp1 : 1 ≤ p) (hp100 : p ≤ 100) (hc : c ≠ 0) :
    (paginate_cursor l q none p sf dir).items
        = (l.filter (matchesQ q)).take p.toNat
      ∧ (paginate_cursor l q none p sf dir).has_next
          = decide (p.toNat < (l.filter (matchesQ q)).length)
      ∧ (paginate_cursor l q (some (.vint c)) p sf dir).items
          = ((l.filter (matchesQ q)).filter (fun d =>
              if 0 ≤ dir then decide (c < intKey sf d)
              else decide (intKey sf d < c))).take p.toNat
      ∧ (paginate_cursor l q (some (.vint c)) p sf dir).has_next
          = decide (p.toNat < ((l.filter (matchesQ q)).filter (fun d =>
              if 0 ≤ dir then decide (c < intKey sf d)
              else decide (intKey sf d < c))).length)
      ∧ ((paginate_cursor l q (some (.vint c)) p sf dir).has_next = true →
          (paginate_cursor l q (some (.vint c)) p sf dir).next_cursor
            = ((paginate_cursor l q (some (.vint c)) p sf dir).items.getLast?).bind
                (fun d => dictGet d sf))
      ∧ (∀ nc : Int,
          (paginate_cursor l q (some (.vint c)) p sf dir).next_cursor
              = some (.vint nc) → nc ≠ 0 →
          (paginate_cursor l q (some (.vint c)) p sf dir).items
              ++ (paginate_cursor l q (some (.vint nc)) p sf dir).items
            = ((l.filter (matchesQ q)).filter (fun d =>
                if 0 ≤ dir then decide (c < intKey sf d)
                else decide (intKey sf d < c))).take (p.toNat + p.toNat))
      ∧ (∀ nc : Int,
          (paginate_cursor l q none p sf dir).next_cursor = some (.vint nc) →
          nc ≠ 0 →
          (paginate_cursor l q none p sf dir).items
              ++ (paginate_cursor l q (some (.vint nc)) p sf dir).items
            = (l.filter (matchesQ q)).take (p.toNat + p.toNat)) := by
  have hppn : 0 < p.toNat := by omega
  have hqf : q.filter (fun e => !(e.1 == sf)) = q := by
    apply List.filter_eq_self.mpr
    intro e he
    simp [hqsf e he]
  have hkeyR : ∀ d ∈ l.filter (matchesQ q), ∃ k : Int,
      dictGet d sf = some (.vint k) :=
    fun d hd => hkey d (List.mem_filter.mp hd).1
  -- the direction-generic core, phrased over an abstract integer key
  -- that increases along the list
  have main : ∀ (key : Doc → Int),
      (∀ d, key d = if 0 ≤ dir then intKey sf d else -(intKey sf d)) →
      List.Pairwise (fun d1 d2 => key d1 < key d2) l →
      (∀ c0 : Int, c0 ≠ 0 →
        cursorFiltered l q (some (.vint c0)) sf dir
          = (l.filter (matchesQ q)).filter (fun d =>
              decide ((if 0 ≤ dir then c0 else -c0) < key d))) →
      ∀ (cur : Option Value),
        cursorFiltered l q cur sf dir = l.filter (matchesQ q)
          ∨ (∃ c0 : Int, cursorFiltered l q cur sf dir
              = (l.filter (matchesQ q)).filter
                  (fun d => decide (c0 < key d))) →
        ∀ nc : Int,
          (paginate_cursor l q cur p sf dir).next_cursor = some (.vint nc) →
          nc ≠ 0 →
          (paginate_cursor l q cur p sf dir).items
              ++ (paginate_cursor l q (some (.vint nc)) p sf dir).items
            = (cursorFiltered l q cur sf dir).take (p.toNat + p.toNat) := by
    intro key hkdef hsk hcf cur hshape nc hnextc hnc
    have hsR : List.Pairwise (fun d1 d2 => key d1 < key d2)
        (l.filter (matchesQ q)) :=
      List.Pairwise.sublist (List.filter_sublist _) hsk
    set F := cursorFiltered l q cur sf dir with hF
    have hn : p.toNat < F.length := by
      by_contra hno
      rw [pc_next_cursor_none l q cur p sf dir hp1 hp100 hno] at hnextc
      cases hnextc
    have hnc_eq := pc_next_cursor l q cur p sf dir hp1 hp100 hn
    rw [hnc_eq] at hnextc
    have htne : F.take p.toNat ≠ [] := by
      apply List.ne_nil_of_length_pos
      rw [List.length_take]
      omega
    obtain ⟨last, hlastq⟩ : ∃ last, (F.take p.toNat).getLast? = some last :=
      ⟨(F.take p.toNat).getLast htne, List.getLast?_eq_getLast _ htne⟩
    rw [hlastq] at hnextc
    have hlast_mem_R : last ∈ l.filter (matchesQ q) := by
      have h1 : last ∈ F.take p.toNat := by
        rw [List.getLast?_eq_getLast _ htne] at hlastq
        have := (Option.some.injEq _ _).mp hlastq
        rw [← this]
        exact List.getLast_mem htne
      have h2 : last ∈ F := List.mem_of_mem_take h1
      rcases hshape with hsh | ⟨c0, hsh⟩
      · exact hsh ▸ h2
      · exact (List.mem_filter.mp (hsh ▸ h2)).1
    obtain ⟨k, hk⟩ := hkeyR last hlast_mem_R
    simp only [Option.some_bind, hk, stringifyCursor] at hnextc
    have hknc : k = nc := Value.vint.inj ((Option.some.injEq _ _).mp hnextc)
    have hlast_ik : intKey sf last = nc := by
      simp [intKey, hk, hknc]
    have hfilter_nc := succession_core key (l.filter (matchesQ q)) F
      p.toNat hppn hsR hshape hn last hlastq
    have hkey_last : key last = if 0 ≤ dir then nc else -nc := by
      rw [hkdef last, hlast_ik]
    have hitems_nc : (paginate_cursor l q (some (.vint nc)) p sf dir).items
        = (F.drop p.toNat).take p.toNat := by
      rw [pc_items l q (some (.vint nc)) p sf dir hp1 hp100,
        hcf nc hnc]
      rw [show ((l.filter (matchesQ q)).filter (fun d =>
            decide ((if 0 ≤ dir then nc else -nc) < key d)))
          = ((l.filter (matchesQ q)).filter (fun d =>
            decide (key last < key d))) from by rw [hkey_last]]
      rw [hfilter_nc]
    rw [pc_items l q cur p sf dir hp1 hp100, ← hF, hitems_nc, List.take_add]
  -- the direction-specific instantiations
  rcases hdir with rfl | rfl
  · -- ascending
    have hpos : (0 : Int) ≤ 1 := by decide
    have hcond : ((1 : Int) ≥ 0) := by decide
    have hsorted1 : List.Pairwise (fun d1 d2 =>
        intKey sf d1 < intKey sf d2) l := by
      have := hsorted
      simp only [hpos, if_pos] at this
      exact this
    have hcf : ∀ c0 : Int, c0 ≠ 0 →
        cursorFiltered l q (some (.vint c0)) sf 1
          = (l.filter (matchesQ q)).filter (fun d =>
              decide ((if (0:Int) ≤ 1 then c0 else -c0) < intKey sf d)) := by
      intro c0 hc0
      rw [cursorFiltered_int_asc l q sf c0 hc0 1 hcond hq hkey, hqf]
      apply List.filter_congr
      intro d _
      rw [if_pos hpos]
    have hm := main (intKey sf) (fun d => by rw [if_pos hpos]) hsorted1 hcf
    have hFc : cursorFiltered l q (some (.vint c)) sf 1
        = (l.filter (matchesQ q)).filter (fun d =>
            decide (c < intKey sf d)) := by
      rw [hcf c hc]
      apply List.filter_congr
      intro d _
      rw [if_pos hpos]
    simp only [if_pos hpos]
    refine ⟨?_, ?_, ?_, ?_, ?_, ?_, ?_⟩
    · rw [pc_items l q none p sf 1 hp1 hp100, cursorFiltered_none]
    · rw [pc_has_next l q none p sf 1 hp1 hp100, cursorFiltered_none]
    · rw [pc_items l q (some (.vint c)) p sf 1 hp1 hp100, hFc]
    · rw [pc_has_next l q (some (.vint c)) p sf 1 hp1 hp100, hFc]
    · intro hhn
      rw [pc_has_next l q (some (.vint c)) p sf 1 hp1 hp100] at hhn
      have hn : p.toNat < (cursorFiltered l q (some (.vint c)) sf 1).length :=
        of_decide_eq_true hhn
      rw [pc_next_cursor l q (some (.vint c)) p sf 1 hp1 hp100 hn]
      rw [pc_items l q (some (.vint c)) p sf 1 hp1 hp100]
      have htne : ((cursorFiltered l q (some (.vint c)) sf 1).take p.toNat)
          ≠ [] := by
        apply List.ne_nil_of_length_pos
        rw [List.length_take]
        omega
      obtain ⟨last, hlastq⟩ : ∃ last,
          ((cursorFiltered l q (some (.vint c)) sf 1).take p.toNat).getLast?
            = some last :=
        ⟨_, List.getLast?_eq_getLast _ htne⟩
      rw [hlastq]
      have hlast_mem_l : last ∈ l := by
        have h1 : last ∈ (cursorFiltered l q (some (.vint c)) sf 1).take
            p.toNat := by
          rw [List.getLast?_eq_getLast _ htne] at hlastq
          have := (Option.some.injEq _ _).mp hlastq
          rw [← this]
          exact List.getLast_mem htne
        have h2 := List.mem_of_mem_take h1
        rw [hFc] at h2
        exact (List.mem_filter.mp ((List.mem_filter.mp h2).1)).1
      obtain ⟨k, hk⟩ := hkey last hlast_mem_l
      simp [hk, stringifyCursor]
    · intro nc hnextc hnc
      have := hm (some (.vint c)) (Or.inr ⟨c, hFc⟩) nc hnextc hnc
      rw [hFc] at this
      exact this
    · intro nc hnextc hnc
      have := hm none (Or.inl (cursorFiltered_none l q sf 1)) nc hnextc hnc
      rw [cursorFiltered_none] at this
      exact this
  · -- descending
    have hneg : ¬ ((0 : Int) ≤ -1) := by decide
    have hcond : ¬ ((-1 : Int) ≥ 0) := by decide
    have hsortedD : List.Pairwise (fun d1 d2 =>
        intKey sf d2 < intKey sf d1) l := by
      have := hsorted
      simp only [hneg, if_neg, if_false] at this
      exact this
    have hsK : List.Pairwise (fun d1 d2 =>
        -(intKey sf d1) < -(intKey sf d2)) l :=
      hsortedD.imp (fun h => by omega)
    have hcf : ∀ c0 : Int, c0 ≠ 0 →
        cursorFiltered l q (some (.vint c0)) sf (-1)
          = (l.filter (matchesQ q)).filter (fun d =>
              decide ((if (0:Int) ≤ -1 then c0 else -c0)
                < -(intKey sf d))) := by
      intro c0 hc0
      rw [cursorFiltered_int_desc l q sf c0 hc0 (-1) hcond hq hkey, hqf]
      apply List.filter_congr
      intro d _
      rw [if_neg hneg]
      exact decide_eq_decide.mpr (by omega)
    have hm := main (fun d => -(intKey sf d))
      (fun d => by rw [if_neg hneg]) hsK hcf
    have hFc : cursorFiltered l q (some (.vint c)) sf (-1)
        = (l.filter (matchesQ q)).filter (fun d =>
            decide (intKey sf d < c)) := by
      rw [hcf c hc]
      apply List.filter_congr
      intro d _
      rw [if_neg hneg]
      exact decide_eq_decide.mpr (by omega)
    simp only [if_neg hneg]
    refine ⟨?_, ?_, ?_, ?_, ?_, ?_, ?_⟩
    · rw [pc_items l q none p sf (-1) hp1 hp100, cursorFiltered_none]
    · rw [pc_has_next l q none p sf (-1) hp1 hp100, cursorFiltered_none]
    · rw [pc_items l q (some (.vint c)) p sf (-1) hp1 hp100, hFc]
    · rw [pc_has_next l q (some (.vint c)) p sf (-1) hp1 hp100, hFc]
    · intro hhn
      rw [pc_has_next l q (some (.vint c)) p sf (-1) hp1 hp100] at hhn
      have hn : p.toNat
          < (cursorFiltered l q (some (.vint c)) sf (-1)).length :=
        of_decide_eq_true hhn
      rw [pc_next_cursor l q (some (.vint c)) p sf (-1) hp1 hp100 hn]
      rw [pc_items l q (some (.vint c)) p sf (-1) hp1 hp100]
      have htne : ((cursorFiltered l q (some (.vint c)) sf (-1)).take p.toNat)
          ≠ [] := by
        apply List.ne_nil_of_length_pos
        rw [List.length_take]
        omega
      obtain ⟨last, hlastq⟩ : ∃ last,
          ((cursorFiltered l q (some (.vint c)) sf (-1)).take
              p.toNat).getLast?
            = some last :=
        ⟨_, List.getLast?_eq_getLast _ htne⟩
      rw [hlastq]
      have hlast_mem_l : last ∈ l := by
        have h1 : last ∈ (cursorFiltered l q (some (.vint c)) sf (-1)).take
            p.toNat := by
          rw [List.getLast?_eq_getLast _ htne] at hlastq
          have := (Option.some.injEq _ _).mp hlastq
          rw [← this]
          exact List.getLast_mem htne
        have h2 := List.mem_of_mem_take h1
        rw [hFc] at h2
        exact (List.mem_filter.mp ((List.mem_filter.mp h2).1)).1
      obtain ⟨k, hk⟩ := hkey last hlast_mem_l
      simp [hk, stringifyCursor]
    · intro nc hnextc hnc
      have := hm (some (.vint c)) (Or.inr ⟨-c, by
        rw [hcf c hc]
        apply List.filter_congr
        intro d _
        rw [if_neg hneg]⟩) nc hnextc hnc
      rw [hFc] at this
      exact this
    · intro nc hnextc hnc
      have := hm none (Or.inl (cursorFiltered_none l q sf (-1))) nc hnextc hnc
      rw [cursorFiltered_none] at this
      exact this

/-- C8 witness: the amended cursor-pagination law applied to a
three-document store with integer keys 1 < 2 < 3, an empty base query,
ascending direction, `per_page = 1` and the truthy cursor 1,
discharging every hypothesis. -/
theorem c8_cursor_pagination_witness :
    (paginate_cursor [[("k", Value.vint 1)], [("k", Value.vint 2)],
        [("k", Value.vint 3)]] [] (some (Value.vint 1)) 1 "k" 1).items
      = [[("k", Value.vint 2)]] := by
  have h := (c8_cursor_pagination
    [[("k", Value.vint 1)], [("k", Value.vint 2)], [("k", Value.vint 3)]]
    [] "k" 1 1 1 (Or.inl rfl) (by simp) (by simp) ?hkey ?hsorted
    (by decide) (by decide) (by decide)).2.2.1
  case hkey =>
    intro d hd
    fin_cases hd
    · exact ⟨1, rfl⟩
    · exact ⟨2, rfl⟩
    · exact ⟨3, rfl⟩
  case hsorted => decide
  rw [h]
  rfl

/-- Type tag of a value (`SchemaIntrospector._detect_type`); the
Python `isinstance` chain maps one-to-one onto the value constructors
(bool is tested before int, as in the source). -/
def detect_type : Value → String
  | .vnull => "null"
  | .vbool _ => "boolean"
  | .vint _ => "integer"
  | .vfloat _ => "number"
  | .vstr _ => "string"
  | .vdatetime _ => "datetime"
  | .vdate _ => "date"
  | .oid _ => "objectid"
  | .vdbref _ _ => "dbref"
  | .vdoc _ => "embedded"
  | .varr _ => "array"
  | .vbin _ => "binary"

/-- Per-field-path accumulator of the introspector
(`field_info[field_path]`): an insertion-ordered type histogram,
occurrence and null counters, collected samples, and the optional array
item type. -/
structure FieldInfo where
  types : List (String × Nat)
  count : Nat
  null_count : Nat
  sample_values : List Value
  array_item_type : Option String
deriving DecidableEq, Repr

instance : Inhabited FieldInfo :=
  ⟨{ types := [], count := 0, null_count := 0, sample_values := [],
     array_item_type := none }⟩

/-- The `field_info` dict as a total function with the defaultdict
default; insertion order of paths is irrelevant to the verified claims
(only the per-path data and the order inside `types` matter). -/
abbrev IntroState := String → FieldInfo

/-- Pointwise dict update `field_info[path] = f(field_info[path])`. -/
def updateInfo (s : IntroState) (p : String) (f : FieldInfo → FieldInfo) :
    IntroState :=
  fun q => if q = p then f (s p) else s q

/-- Increment of the `defaultdict(int)` type histogram: bump in place
when the tag is present, else append it with count one. -/
def bumpType : List (String × Nat) → String → List (String × Nat)
  | [], t => [(t, 1)]
  | (k, n) :: rest, t =>
      if k = t then (k, n + 1) :: rest else (k, n) :: bumpType rest t

/- The recursive walk `SchemaIntrospector._analyze_document`,
written as three mutually recursive functions: `analyzeDocument`
handles the key/value loop (every pair bumps the occurrence count, type
histogram, null count and samples at `prefix + key`), `analyzeValue`
the dict/array branches at the end of the loop body (a dict value
records a second `embedded` tag and recurses with a dotted prefix; a
non-empty array records a second `array` tag and hands its first
element on), and `analyzeFirstElem` the first-array-element step (set
the array item type; recurse with a `.[].` prefix marker when it is a
dict). -/
/-- The four flat updates of the loop body of `_analyze_document` at one
key/value pair: occurrence count, type histogram, null count, and up to
five collected samples. -/
def analyzeEntryState (s : IntroState) (path : String) (value : Value) :
    IntroState :=
  let s1 := updateInfo s path (fun i => { i with count := i.count + 1 })
  let s2 := updateInfo s1 path
    (fun i => { i with types := bumpType i.types (detect_type value) })
  let s3 := if value = .vnull then
      updateInfo s2 path
        (fun i => { i with null_count := i.null_count + 1 })
    else s2
  updateInfo s3 path
    (fun i => if i.sample_values.length < 5 then
        { i with sample_values := i.sample_values ++ [value] }
      else i)

mutual

def analyzeDocument (fields : List (String × Value)) (s : IntroState)
    (pfx : String) : IntroState :=
  match fields with
  | [] => s
  | (key, value) :: rest =>
      analyzeDocument rest
        (analyzeValue value (analyzeEntryState s (pfx ++ key) value)
          (pfx ++ key)) pfx

def analyzeValue (value : Value) (s : IntroState) (path : String) :
    IntroState :=
  match value with
  | .vdoc g =>
      analyzeDocument g
        (updateInfo s path
          (fun i => { i with types := bumpType i.types "embedded" }))
        (path ++ ".")
  | .varr (first :: _) =>
      analyzeFirstElem first
        (updateInfo s path
          (fun i => { i with types := bumpType i.types "array" }))
        path
  | _ => s

def analyzeFirstElem (first : Value) (s : IntroState) (path : String) :
    IntroState :=
  match first with
  | .vdoc g =>
      analyzeDocument g
        (updateInfo s path
          (fun i => { i with array_item_type := some "embedded" }))
        (path ++ ".[].")
  | _ =>
      updateInfo s path
        (fun i => { i with array_item_type := some (detect_type first) })

end

/-- One entry of the final schema dictionary
(`SchemaIntrospector.introspect`, result-building loop). -/
structure SchemaEntry where
  type : String
  frequency : Rat
  nullable : Bool
  sample_values : List Value
  array_item_type : Option String
  alternative_types : Option (List String)
deriving DecidableEq, Repr

/-- The fold of Python `max(items, key=...)`: keep the incumbent on
ties, replace only on a strictly greater count. -/
def pyMaxSnd : List (String × Nat) → (String × Nat) → (String × Nat)
  | [], best => best
  | x :: rest, best => pyMaxSnd rest (if x.2 > best.2 then x else best)

/-- Python `max(info["types"].items(), key=lambda x: x[1])[0]`: the key
of the first maximal entry in insertion order (raises on an empty
histogram in Python; the empty case is unreachable for observed paths
and returns the empty string here). -/
def primaryType (ts : List (String × Nat)) : String :=
  match ts with
  | [] => ""
  | x :: rest => (pyMaxSnd rest x).1

/-- The accumulated `field_info` after walking every sampled
document. -/
def introspectState (documents : List Doc) : IntroState :=
  documents.foldl (fun s d => analyzeDocument d s "") (fun _ => default)

/-- The `SchemaIntrospector.introspect` flow: an empty sample yields an
empty schema; otherwise each observed field path (a path is in
`field_info` exactly when its occurrence count is positive, since every
update site is preceded by the count bump at the same path) maps to its
primary type, frequency `count / total`, nullability, at most five
samples, and the optional array item type and alternative-type list. -/
def introspect (documents : List Doc) : String → Option SchemaEntry :=
  if documents = [] then fun _ => none
  else
    let st := introspectState documents
    let total := documents.length
    fun p =>
      let info := st p
      if info.count = 0 then none
      else some
        { type := primaryType info.types,
          frequency := (info.count : Rat) / (total : Rat),
          nullable := decide (info.null_count > 0),
          sample_values := info.sample_values.take 5,
          array_item_type := info.array_item_type,
          alternative_types :=
            if info.types.length > 1 then some (info.types.map Prod.fst)
            else none }

/- Specification-side walk: the values observed at a dotted field
path while walking one document exactly as `_analyze_document` does
(nested dicts with a `.` separator, first array elements with a `.[].`
marker). -/
mutual

def valuesAt (fields : List (String × Value)) (pfx p : String) :
    List Value :=
  match fields with
  | [] => []
  | (key, value) :: rest =>
      let path := pfx ++ key
      (if path = p then [value] else [])
        ++ valuesIn value path p
        ++ valuesAt rest pfx p

def valuesIn (value : Value) (path p : String) : List Value :=
  match value with
  | .vdoc g => valuesAt g (path ++ ".") p
  | .varr (first :: _) => valuesFirst first path p
  | _ => []

def valuesFirst (first : Value) (path p : String) : List Value :=
  match first with
  | .vdoc g => valuesAt g (path ++ ".[].") p
  | _ => []

end

/-- Maximum count appearing in a type histogram. -/
def maxCount (ts : List (String × Nat)) : Nat :=
  ts.foldr (fun e m => max e.2 m) 0

/-- Mode with first-occurrence tie-break, as the claim words it: the
first type in insertion order whose count attains the maximum. -/
def modeFirst (ts : List (String × Nat)) : String :=
  ((ts.find? (fun e => e.2 = maxCount ts)).map Prod.fst).getD ""

/-- The histogram the claim describes: one classification of the
field's value per occurrence in each sampled document, accumulated in
first-seen order. -/
def claimHist (documents : List Doc) (p : String) : List (String × Nat) :=
  documents.foldl
    (fun ts d => ((valuesAt d "" p).map detect_type).foldl bumpType ts) []

/-- C4 counterexample: for the sample `{a: {}}, {a: "x"}, {a: "y"}`,
the recursion step records a second `embedded` tag for the dict value,
so the code's histogram at `a` is `embedded: 2, string: 2` and the
first-seen tie-break prefers `embedded`; the histogram of
one-classification-per-document that the claim describes is
`embedded: 1, string: 2`, whose mode is `string`. -/
theorem c4_counterexample :
    (introspect [[("a", Value.vdoc [])], [("a", Value.vstr "x")],
        [("a", Value.vstr "y")]] "a").map SchemaEntry.type
      = some "embedded"
      ∧ modeFirst (claimHist [[("a", Value.vdoc [])], [("a", Value.vstr "x")],
          [("a", Value.vstr "y")]] "a") = "string"
      ∧ ("embedded" : String) ≠ "string" :=
  ⟨rfl, rfl, by decide⟩

theorem maxCount_cons (e : String × Nat) (l : List (String × Nat)) :
    maxCount (e :: l) = max e.2 (maxCount l) := rfl

theorem pyMaxSnd_spec :
    ∀ (rest : List (String × Nat)) (best : String × Nat),
      (best :: rest).find? (fun e => e.2 = maxCount (best :: rest))
        = some (pyMaxSnd rest best) := by
  intro rest
  induction rest with
  | nil =>
      intro best
      have hm : maxCount [best] = best.2 := by
        rw [maxCount_cons]
        simp [maxCount]
      simp [List.find?_cons, hm, pyMaxSnd]
  | cons x rs ih =>
      intro best
      by_cases hx : x.2 > best.2
      · have hM : maxCount (best :: x :: rs) = maxCount (x :: rs) := by
          simp only [maxCount_cons]
          omega
        have hbest : ¬ (best.2 = maxCount (best :: x :: rs)) := by
          rw [hM, maxCount_cons]
          omega
        rw [show pyMaxSnd (x :: rs) best = pyMaxSnd rs x by
          simp [pyMaxSnd, hx]]
        rw [List.find?_cons_of_neg _ (by simpa using hbest)]
        rw [show (fun (e : String × Nat) =>
            decide (e.2 = maxCount (best :: x :: rs)))
          = (fun (e : String × Nat) =>
            decide (e.2 = maxCount (x :: rs))) by rw [hM]]
        exact ih x
      · have hM : maxCount (best :: x :: rs) = maxCount (best :: rs) := by
          simp only [maxCount_cons]
          omega
        rw [show pyMaxSnd (x :: rs) best = pyMaxSnd rs best by
          simp [pyMaxSnd, hx]]
        by_cases hbest : best.2 = maxCount (best :: x :: rs)
        · have hbest2 : best.2 = maxCount (best :: rs) := by rw [← hM]; exact hbest
          have hfind := ih best
          rw [List.find?_cons_of_pos _ (by simpa using hbest2)] at hfind
          have hpy : pyMaxSnd rs best = best :=
            ((Option.some.injEq _ _).mp hfind).symm
          rw [hpy]
          exact List.find?_cons_of_pos _ (by simpa using hbest)
        · have hbest2 : ¬ (best.2 = maxCount (best :: rs)) := by
            rw [← hM]; exact hbest
          have hxne : ¬ (x.2 = maxCount (best :: x :: rs)) := by
            simp only [maxCount_cons] at hbest ⊢
            omega
          have hfind := ih best
          rw [List.find?_cons_of_neg _ (by simpa using hbest2)] at hfind
          rw [List.find?_cons_of_neg _ (by simpa using hbest),
            List.find?_cons_of_neg _ (by simpa using hxne)]
          rw [show (fun (e : String × Nat) =>
              decide (e.2 = maxCount (best :: x :: rs)))
            = (fun (e : String × Nat) =>
              decide (e.2 = maxCount (best :: rs))) by rw [hM]]
          exact hfind

theorem primaryType_eq_modeFirst (ts : List (String × Nat)) :
    primaryType ts = modeFirst ts := by
  match ts with
  | [] => rfl
  | x :: rest =>
      rw [primaryType, modeFirst, pyMaxSnd_spec rest x]
      rfl

/-- C4 amended: the introspected primary type of every observed field
path is the mode of the code's accumulated type histogram — in which a
dict occurrence records `embedded` twice and a non-empty array
occurrence records `array` twice, once from classification and once
from the recursion step — with ties broken by insertion order of first
occurrence (the first type seen that attains the maximum count). -/
theorem c4_primary_type (documents : List Doc) (p : String)
    (e : SchemaEntry) (he : introspect documents p = some e) :
    e.type = modeFirst ((introspectState documents) p).types := by
  unfold introspect at he
  by_cases hd : documents = []
  · rw [if_pos hd] at he
    cases he
  · rw [if_neg hd] at he
    by_cases hc : ((introspectState documents) p).count = 0
    · simp only [hc, if_pos] at he
      cases he
    · simp only [if_neg hc] at he
      have := (Option.some.injEq _ _).mp he
      rw [← this]
      exact primaryType_eq_modeFirst _

/-- C4 witness: the amended primary-type law applied to a concrete
two-document sample; the entry observed at field `a` carries the mode
of the code’s histogram as its primary type. -/
theorem c4_primary_type_witness :
    ((introspect [[("a", Value.vint 1)], [("a", Value.vstr "x")]] "a").map
        SchemaEntry.type).getD "missing"
      = modeFirst ((introspectState
          [[("a", Value.vint 1)], [("a", Value.vstr "x")]]) "a").types := by
  rcases hi : introspect [[("a", Value.vint 1)], [("a", Value.vstr "x")]] "a"
    with _ | e
  · exfalso
    have h2 : (introspect [[("a", Value.vint 1)], [("a", Value.vstr "x")]]
        "a").isSome = true := rfl
    rw [hi] at h2
    cases h2
  · exact c4_primary_type [[("a", Value.vint 1)], [("a", Value.vstr "x")]]
      "a" e hi

/- C5 development: the claim's frequency/nullable invariants.  The
counterexample exploits dotted-key collisions (a literal key `a.b`
colliding with the walk's derived path `a` + `.` + `b`); the amended
theorem assumes well-formed documents: keys contain no dot and are
unique within each dict, recursively. -/

mutual

def wfFields : List (String × Value) → Bool
  | [] => true
  | (k, v) :: rest =>
      (!(decide ('.' ∈ k.data)) && !(decide (∃ e ∈ rest, e.1 = k)))
        && (wfValue v && wfFields rest)

def wfValue : Value → Bool
  | .vdoc g => wfFields g
  | .varr (first :: _) => wfFirst first
  | _ => true

def wfFirst : Value → Bool
  | .vdoc g => wfFields g
  | _ => true

end

theorem string_data_append (a b : String) :
    (a ++ b).data = a.data ++ b.data := rfl

theorem string_ext {a b : String} (h : a.data = b.data) : a = b := by
  obtain ⟨da⟩ := a
  obtain ⟨db⟩ := b
  have h2 : da = db := h
  rw [h2]

theorem dotfree_cancel :
    ∀ (k k' r r' : List Char), '.' ∉ k → '.' ∉ k' →
      k ++ '.' :: r = k' ++ '.' :: r' → k = k' := by
  intro k
  induction k with
  | nil =>
      intro k' r r' _ hk' h
      cases k' with
      | nil => rfl
      | cons c k2 =>
          injection h with h1 _
          exact absurd (by rw [h1]; exact List.mem_cons_self c k2) hk'
  | cons c k2 ih =>
      intro k' r r' hk hk' h
      cases k' with
      | nil =>
          injection h with h1 _
          exact absurd (by rw [← h1]; exact List.mem_cons_self c k2) hk
      | cons c2 k3 =>
          injection h with h1 h2
          have ht := ih k3 r r'
            (fun hm => hk (List.mem_cons_of_mem _ hm))
            (fun hm => hk' (List.mem_cons_of_mem _ hm)) h2
          rw [h1, ht]

theorem wfFields_mem :
    ∀ (fields : List (String × Value)), wfFields fields = true →
      ∀ kv ∈ fields, ('.' ∉ kv.1.data) ∧ wfValue kv.2 = true := by
  intro fields
  induction fields with
  | nil => intro _ kv hm; cases hm
  | cons e rest ih =>
      intro h kv hm
      obtain ⟨k, v⟩ := e
      have hparts : ((¬ ('.' ∈ k.data)) ∧ ¬ (∃ x ∈ rest, x.1 = k))
          ∧ wfValue v = true ∧ wfFields rest = true := by
        simpa [wfFields, Bool.and_eq_true, decide_eq_true_eq] using h
      rcases List.mem_cons.mp hm with rfl | hm2
      · exact ⟨hparts.1.1, hparts.2.1⟩
      · exact ih hparts.2.2 kv hm2

theorem updateInfo_count_of (s : IntroState) (path : String)
    (f : FieldInfo → FieldInfo) (p : String)
    (h : ∀ i, (f i).count = i.count) :
    ((updateInfo s path f) p).count = (s p).count := by
  unfold updateInfo
  by_cases hq : p = path
  · simp [hq, h]
  · simp [hq]

theorem updateInfo_null_of (s : IntroState) (path : String)
    (f : FieldInfo → FieldInfo) (p : String)
    (h : ∀ i, (f i).null_count = i.null_count) :
    ((updateInfo s path f) p).null_count = (s p).null_count := by
  unfold updateInfo
  by_cases hq : p = path
  · simp [hq, h]
  · simp [hq]

theorem analyzeEntryState_count (s : IntroState) (path : String)
    (value : Value) (p : String) :
    ((analyzeEntryState s path value) p).count
      = (s p).count + (if p = path then 1 else 0) := by
  unfold analyzeEntryState updateInfo
  by_cases hq : p = path
  · by_cases hn : value = Value.vnull <;>
      simp [hq, hn, apply_ite FieldInfo.count]
  · by_cases hn : value = Value.vnull <;>
      simp [hq, hn, apply_ite FieldInfo.count]

theorem analyzeEntryState_null (s : IntroState) (path : String)
    (value : Value) (p : String) :
    ((analyzeEntryState s path value) p).null_count
      = (s p).null_count
        + (if p = path ∧ value = Value.vnull then 1 else 0) := by
  unfold analyzeEntryState updateInfo
  by_cases hq : p = path
  · by_cases hn : value = Value.vnull <;>
      simp [hq, hn, apply_ite FieldInfo.null_count]
  · by_cases hn : value = Value.vnull <;>
      simp [hq, hn, apply_ite FieldInfo.null_count]


/- Occurrence-count decomposition: walking a document adds, at every
path, exactly the number of values the specification-side walk observes
there. -/
mutual

theorem analyzeDocument_count (fields : List (String × Value))
    (s : IntroState) (pfx p : String) :
    ((analyzeDocument fields s pfx) p).count
      = (s p).count + (valuesAt fields pfx p).length := by
  match fields with
  | [] =>
      rw [show analyzeDocument [] s pfx = s from rfl,
        show valuesAt [] pfx p = [] from rfl]
      simp
  | (key, value) :: rest =>
      rw [show analyzeDocument ((key, value) :: rest) s pfx
          = analyzeDocument rest
              (analyzeValue value (analyzeEntryState s (pfx ++ key) value)
                (pfx ++ key)) pfx from rfl,
        analyzeDocument_count rest _ pfx p,
        analyzeValue_count value _ (pfx ++ key) p,
        analyzeEntryState_count s (pfx ++ key) value p,
        show valuesAt ((key, value) :: rest) pfx p
          = (if pfx ++ key = p then [value] else [])
              ++ valuesIn value (pfx ++ key) p
              ++ valuesAt rest pfx p from rfl]
      simp only [List.length_append]
      by_cases hp : pfx ++ key = p
      · subst hp
        simp
        omega
      · rw [if_neg hp, if_neg (fun h => hp h.symm)]
        simp only [List.length_nil]
        omega

theorem analyzeValue_count (value : Value) (s : IntroState)
    (path p : String) :
    ((analyzeValue value s path) p).count
      = (s p).count + (valuesIn value path p).length := by
  match value with
  | .vdoc g =>
      rw [show analyzeValue (.vdoc g) s path
          = analyzeDocument g
              (updateInfo s path
                (fun i => { i with types := bumpType i.types "embedded" }))
              (path ++ ".") from rfl,
        analyzeDocument_count g _ (path ++ ".") p,
        updateInfo_count_of s path
          (fun i => { i with types := bumpType i.types "embedded" }) p
          (fun i => rfl),
        show valuesIn (.vdoc g) path p = valuesAt g (path ++ ".") p from rfl]
  | .varr [] => rfl
  | .varr (first :: tl) =>
      rw [show analyzeValue (.varr (first :: tl)) s path
          = analyzeFirstElem first
              (updateInfo s path
                (fun i => { i with types := bumpType i.types "array" }))
              path from rfl,
        analyzeFirstElem_count first _ path p,
        updateInfo_count_of s path
          (fun i => { i with types := bumpType i.types "array" }) p
          (fun i => rfl),
        show valuesIn (.varr (first :: tl)) path p
          = valuesFirst first path p from rfl]
  | .vnull => rfl
  | .vbool b => rfl
  | .vint n => rfl
  | .vfloat q => rfl
  | .vstr t => rfl
  | .vdatetime t => rfl
  | .vdate t => rfl
  | .oid t => rfl
  | .vdbref c t => rfl
  | .vbin t => rfl

theorem analyzeFirstElem_count (first : Value) (s : IntroState)
    (path p : String) :
    ((analyzeFirstElem first s path) p).count
      = (s p).count + (valuesFirst first path p).length := by
  match first with
  | .vdoc g =>
      rw [show analyzeFirstElem (.vdoc g) s path
          = analyzeDocument g
              (updateInfo s path
                (fun i => { i with array_item_type := some "embedded" }))
              (path ++ ".[].") from rfl,
        analyzeDocument_count g _ (path ++ ".[].") p,
        updateInfo_count_of s path
          (fun i => { i with array_item_type := some "embedded" }) p
          (fun i => rfl),
        show valuesFirst (.vdoc g) path p
          = valuesAt g (path ++ ".[].") p from rfl]
  | .vnull =>
      unfold analyzeFirstElem updateInfo
      by_cases hq : p = path <;> simp [hq, valuesFirst]
  | .vbool b =>
      unfold analyzeFirstElem updateInfo
      by_cases hq : p = path <;> simp [hq, valuesFirst]
  | .vint n =>
      unfold analyzeFirstElem updateInfo
      by_cases hq : p = path <;> simp [hq, valuesFirst]
  | .vfloat q =>
      unfold analyzeFirstElem updateInfo
      by_cases hq : p = path <;> simp [hq, valuesFirst]
  | .vstr t =>
      unfold analyzeFirstElem updateInfo
      by_cases hq : p = path <;> simp [hq, valuesFirst]
  | .vdatetime t =>
      unfold analyzeFirstElem updateInfo
      by_cases hq : p = path <;> simp [hq, valuesFirst]
  | .vdate t =>
      unfold analyzeFirstElem updateInfo
      by_cases hq : p = path <;> simp [hq, valuesFirst]
  | .oid t =>
      unfold analyzeFirstElem updateInfo
      by_cases hq : p = path <;> simp [hq, valuesFirst]
  | .vdbref c t =>
      unfold analyzeFirstElem updateInfo
      by_cases hq : p = path <;> simp [hq, valuesFirst]
  | .varr l =>
      unfold analyzeFirstElem updateInfo
      by_cases hq : p = path <;> simp [hq, valuesFirst]
  | .vbin t =>
      unfold analyzeFirstElem updateInfo
      by_cases hq : p = path <;> simp [hq, valuesFirst]

end

/- Null-count decomposition: walking a document adds, at every path,
the number of explicit nulls the specification-side walk observes
there. -/
mutual

theorem analyzeDocument_null (fields : List (String × Value))
    (s : IntroState) (pfx p : String) :
    ((analyzeDocument fields s pfx) p).null_count
      = (s p).null_count
        + (valuesAt fields pfx p).countP (fun v => decide (v = Value.vnull)) := by
  match fields with
  | [] =>
      rw [show analyzeDocument [] s pfx = s from rfl,
        show valuesAt [] pfx p = [] from rfl]
      simp
  | (key, value) :: rest =>
      rw [show analyzeDocument ((key, value) :: rest) s pfx
          = analyzeDocument rest
              (analyzeValue value (analyzeEntryState s (pfx ++ key) value)
                (pfx ++ key)) pfx from rfl,
        analyzeDocument_null rest _ pfx p,
        analyzeValue_null value _ (pfx ++ key) p,
        analyzeEntryState_null s (pfx ++ key) value p,
        show valuesAt ((key, value) :: rest) pfx p
          = (if pfx ++ key = p then [value] else [])
              ++ valuesIn value (pfx ++ key) p
              ++ valuesAt rest pfx p from rfl]
      simp only [List.countP_append]
      by_cases hp : pfx ++ key = p
      · subst hp
        by_cases hn : value = Value.vnull
        · simp [hn, List.countP_cons]
          omega
        · simp [hn, List.countP_cons]
          omega
      · rw [if_neg hp, if_neg (fun h : p = pfx ++ key ∧ _ => hp h.1.symm)]
        simp only [List.countP_nil]
        omega

theorem analyzeValue_null (value : Value) (s : IntroState)
    (path p : String) :
    ((analyzeValue value s path) p).null_count
      = (s p).null_count
        + (valuesIn value path p).countP (fun v => decide (v = Value.vnull)) := by
  match value with
  | .vdoc g =>
      rw [show analyzeValue (.vdoc g) s path
          = analyzeDocument g
              (updateInfo s path
                (fun i => { i with types := bumpType i.types "embedded" }))
              (path ++ ".") from rfl,
        analyzeDocument_null g _ (path ++ ".") p,
        updateInfo_null_of s path
          (fun i => { i with types := bumpType i.types "embedded" }) p
          (fun i => rfl),
        show valuesIn (.vdoc g) path p = valuesAt g (path ++ ".") p from rfl]
  | .varr [] => rfl
  | .varr (first :: tl) =>
      rw [show analyzeValue (.varr (first :: tl)) s path
          = analyzeFirstElem first
              (updateInfo s path
                (fun i => { i with types := bumpType i.types "array" }))
              path from rfl,
        analyzeFirstElem_null first _ path p,
        updateInfo_null_of s path
          (fun i => { i with types := bumpType i.types "array" }) p
          (fun i => rfl),
        show valuesIn (.varr (first :: tl)) path p
          = valuesFirst first path p from rfl]
  | .vnull => rfl
  | .vbool b => rfl
  | .vint n => rfl
  | .vfloat q => rfl
  | .vstr t => rfl
  | .vdatetime t => rfl
  | .vdate t => rfl
  | .oid t => rfl
  | .vdbref c t => rfl
  | .vbin t => rfl

theorem analyzeFirstElem_null (first : Value) (s : IntroState)
    (path p : String) :
    ((analyzeFirstElem first s path) p).null_count
      = (s p).null_count
        + (valuesFirst first path p).countP (fun v => decide (v = Value.vnull)) := by
  match first with
  | .vdoc g =>
      rw [show analyzeFirstElem (.vdoc g) s path
          = analyzeDocument g
              (updateInfo s path
                (fun i => { i with array_item_type := some "embedded" }))
              (path ++ ".[].") from rfl,
        analyzeDocument_null g _ (path ++ ".[].") p,
        updateInfo_null_of s path
          (fun i => { i with array_item_type := some "embedded" }) p
          (fun i => rfl),
        show valuesFirst (.vdoc g) path p
          = valuesAt g (path ++ ".[].") p from rfl]
  | .vnull =>
      unfold analyzeFirstElem updateInfo
      by_cases hq : p = path <;> simp [hq, valuesFirst]
  | .vbool b =>
      unfold analyzeFirstElem updateInfo
      by_cases hq : p = path <;> simp [hq, valuesFirst]
  | .vint n =>
      unfold analyzeFirstElem updateInfo
      by_cases hq : p = path <;> simp [hq, valuesFirst]
  | .vfloat q =>
      unfold analyzeFirstElem updateInfo
      by_cases hq : p = path <;> simp [hq, valuesFirst]
  | .vstr t =>
      unfold analyzeFirstElem updateInfo
      by_cases hq : p = path <;> simp [hq, valuesFirst]
  | .vdatetime t =>
      unfold analyzeFirstElem updateInfo
      by_cases hq : p = path <;> simp [hq, valuesFirst]
  | .vdate t =>
      unfold analyzeFirstElem updateInfo
      by_cases hq : p = path <;> simp [hq, valuesFirst]
  | .oid t =>
      unfold analyzeFirstElem updateInfo
      by_cases hq : p = path <;> simp [hq, valuesFirst]
  | .vdbref c t =>
      unfold analyzeFirstElem updateInfo
      by_cases hq : p = path <;> simp [hq, valuesFirst]
  | .varr l =>
      unfold analyzeFirstElem updateInfo
      by_cases hq : p = path <;> simp [hq, valuesFirst]
  | .vbin t =>
      unfold analyzeFirstElem updateInfo
      by_cases hq : p = path <;> simp [hq, valuesFirst]

end

/- Shape of observed paths: every path at which the walk observes a
value decomposes as prefix + key + tail, the tail empty (a direct hit)
or starting with a dot (an occurrence inside a nested or array-element
document). -/
mutual

theorem valuesAt_shape (fields : List (String × Value)) (pfx p : String)
    (h : valuesAt fields pfx p ≠ []) :
    ∃ kv ∈ fields, ∃ t : List Char,
      p.data = pfx.data ++ kv.1.data ++ t
        ∧ (t = [] ∨ ∃ r, t = '.' :: r) := by
  match fields with
  | [] => exact absurd rfl h
  | (key, value) :: rest =>
      rw [show valuesAt ((key, value) :: rest) pfx p
          = (if pfx ++ key = p then [value] else [])
              ++ valuesIn value (pfx ++ key) p
              ++ valuesAt rest pfx p from rfl] at h
      by_cases h1 : valuesAt rest pfx p = []
      · by_cases h2 : valuesIn value (pfx ++ key) p = []
        · have hp : pfx ++ key = p := by
            by_contra hp
            rw [if_neg hp, h1, h2] at h
            exact h rfl
          refine ⟨(key, value), List.mem_cons_self _ _, [], ?_, Or.inl rfl⟩
          rw [← hp, string_data_append, List.append_nil]
        · rcases valuesIn_shape value (pfx ++ key) p h2 with ⟨r, hr⟩
          refine ⟨(key, value), List.mem_cons_self _ _, '.' :: r, ?_,
            Or.inr ⟨r, rfl⟩⟩
          rw [hr, string_data_append, List.append_assoc]
      · rcases valuesAt_shape rest pfx p h1 with ⟨kv, hm, t, ht, hor⟩
        exact ⟨kv, List.mem_cons_of_mem _ hm, t, ht, hor⟩

theorem valuesIn_shape (value : Value) (path p : String)
    (h : valuesIn value path p ≠ []) :
    ∃ r : List Char, p.data = path.data ++ '.' :: r := by
  match value with
  | .vdoc g =>
      rcases valuesAt_shape g (path ++ ".") p h with ⟨kv, _, t, ht, _⟩
      refine ⟨kv.1.data ++ t, ?_⟩
      rw [ht, string_data_append, List.append_assoc, List.append_assoc]
      rfl
  | .varr [] => exact absurd rfl h
  | .varr (first :: tl) => exact valuesFirst_shape first path p h
  | .vnull => exact absurd rfl h
  | .vbool b => exact absurd rfl h
  | .vint n => exact absurd rfl h
  | .vfloat q => exact absurd rfl h
  | .vstr t => exact absurd rfl h
  | .vdatetime t => exact absurd rfl h
  | .vdate t => exact absurd rfl h
  | .oid t => exact absurd rfl h
  | .vdbref c t => exact absurd rfl h
  | .vbin t => exact absurd rfl h

theorem valuesFirst_shape (first : Value) (path p : String)
    (h : valuesFirst first path p ≠ []) :
    ∃ r : List Char, p.data = path.data ++ '.' :: r := by
  match first with
  | .vdoc g =>
      rcases valuesAt_shape g (path ++ ".[].") p h with ⟨kv, _, t, ht, _⟩
      refine ⟨'[' :: ']' :: '.' :: (kv.1.data ++ t), ?_⟩
      rw [ht, string_data_append, List.append_assoc, List.append_assoc]
      rfl
  | .varr l => exact absurd rfl h
  | .vnull => exact absurd rfl h
  | .vbool b => exact absurd rfl h
  | .vint n => exact absurd rfl h
  | .vfloat q => exact absurd rfl h
  | .vstr t => exact absurd rfl h
  | .vdatetime t => exact absurd rfl h
  | .vdate t => exact absurd rfl h
  | .oid t => exact absurd rfl h
  | .vdbref c t => exact absurd rfl h
  | .vbin t => exact absurd rfl h

end

/- Under well-formed documents (dot-free, duplicate-free keys,
recursively) each field path is observed at most once per document. -/
mutual

theorem valuesAt_le_one (fields : List (String × Value)) (pfx p : String)
    (h : wfFields fields = true) : (valuesAt fields pfx p).length ≤ 1 := by
  match fields with
  | [] =>
      rw [show valuesAt [] pfx p = [] from rfl]
      simp
  | (key, value) :: rest =>
      have hparts : ((¬ ('.' ∈ key.data)) ∧ ¬ (∃ x ∈ rest, x.1 = key))
          ∧ wfValue value = true ∧ wfFields rest = true := by
        simpa [wfFields, Bool.and_eq_true, decide_eq_true_eq] using h
      obtain ⟨⟨hdot, hnodup⟩, hv, hrest⟩ := hparts
      have hin1 : (valuesIn value (pfx ++ key) p).length ≤ 1 :=
        valuesIn_le_one value (pfx ++ key) p hv
      have hrest1 : (valuesAt rest pfx p).length ≤ 1 :=
        valuesAt_le_one rest pfx p hrest
      rw [show valuesAt ((key, value) :: rest) pfx p
          = (if pfx ++ key = p then [value] else [])
              ++ valuesIn value (pfx ++ key) p
              ++ valuesAt rest pfx p from rfl]
      simp only [List.length_append]
      by_cases hp : pfx ++ key = p
      · have hin : valuesIn value (pfx ++ key) p = [] := by
          by_contra hne
          rcases valuesIn_shape value (pfx ++ key) p hne with ⟨r, hr⟩
          rw [← hp] at hr
          have hlen := congrArg List.length hr
          simp at hlen
        have hrestnil : valuesAt rest pfx p = [] := by
          by_contra hne
          rcases valuesAt_shape rest pfx p hne with ⟨kv, hm, t, ht, hor⟩
          have hpd : p.data = pfx.data ++ key.data := by
            rw [← hp, string_data_append]
          rw [hpd, List.append_assoc] at ht
          have hkt : key.data = kv.1.data ++ t :=
            List.append_cancel_left ht
          rcases hor with rfl | ⟨r, rfl⟩
          · rw [List.append_nil] at hkt
            exact hnodup ⟨kv, hm, string_ext hkt.symm⟩
          · apply hdot
            rw [hkt]
            exact List.mem_append_right _ (List.mem_cons_self _ _)
        rw [if_pos hp, hin, hrestnil]
        simp
      · rw [if_neg hp]
        simp only [List.length_nil, Nat.zero_add]
        by_cases hin : valuesIn value (pfx ++ key) p = []
        · rw [hin]
          simpa using hrest1
        · have hrestnil : valuesAt rest pfx p = [] := by
            by_contra hne
            rcases valuesIn_shape value (pfx ++ key) p hin with ⟨r, hr⟩
            rcases valuesAt_shape rest pfx p hne with ⟨kv, hm, t, ht, hor⟩
            have hkdot : '.' ∉ kv.1.data := (wfFields_mem rest hrest kv hm).1
            rw [string_data_append, List.append_assoc] at hr
            rw [List.append_assoc] at ht
            have hc : key.data ++ '.' :: r = kv.1.data ++ t :=
              List.append_cancel_left (hr.symm.trans ht)
            rcases hor with rfl | ⟨r2, rfl⟩
            · apply hkdot
              rw [List.append_nil] at hc
              rw [← hc]
              exact List.mem_append_right _ (List.mem_cons_self _ _)
            · have hkk := dotfree_cancel key.data kv.1.data r r2 hdot hkdot hc
              exact hnodup ⟨kv, hm, string_ext hkk.symm⟩
          rw [hrestnil]
          simpa using hin1

theorem valuesIn_le_one (value : Value) (path p : String)
    (h : wfValue value = true) : (valuesIn value path p).length ≤ 1 := by
  match value with
  | .vdoc g =>
      exact valuesAt_le_one g (path ++ ".") p
        (by simpa [wfValue] using h)
  | .varr [] => exact Nat.zero_le 1
  | .varr (first :: tl) =>
      exact valuesFirst_le_one first path p
        (by simpa [wfValue] using h)
  | .vnull => exact Nat.zero_le 1
  | .vbool b => exact Nat.zero_le 1
  | .vint n => exact Nat.zero_le 1
  | .vfloat q => exact Nat.zero_le 1
  | .vstr t => exact Nat.zero_le 1
  | .vdatetime t => exact Nat.zero_le 1
  | .vdate t => exact Nat.zero_le 1
  | .oid t => exact Nat.zero_le 1
  | .vdbref c t => exact Nat.zero_le 1
  | .vbin t => exact Nat.zero_le 1

theorem valuesFirst_le_one (first : Value) (path p : String)
    (h : wfFirst first = true) : (valuesFirst first path p).length ≤ 1 := by
  match first with
  | .vdoc g =>
      exact valuesAt_le_one g (path ++ ".[].") p
        (by simpa [wfFirst] using h)
  | .varr l => exact Nat.zero_le 1
  | .vnull => exact Nat.zero_le 1
  | .vbool b => exact Nat.zero_le 1
  | .vint n => exact Nat.zero_le 1
  | .vfloat q => exact Nat.zero_le 1
  | .vstr t => exact Nat.zero_le 1
  | .vdatetime t => exact Nat.zero_le 1
  | .vdate t => exact Nat.zero_le 1
  | .oid t => exact Nat.zero_le 1
  | .vdbref c t => exact Nat.zero_le 1
  | .vbin t => exact Nat.zero_le 1

end

theorem introspectState_count_fold (docs : List Doc) :
    ∀ (s : IntroState) (p : String),
      ((docs.foldl (fun s d => analyzeDocument d s "") s) p).count
        = (s p).count
          + (docs.map (fun d => (valuesAt d "" p).length)).sum := by
  induction docs with
  | nil => intro s p; simp
  | cons d rest ih =>
      intro s p
      rw [List.foldl_cons, ih, analyzeDocument_count]
      simp only [List.map_cons, List.sum_cons]
      omega

theorem introspectState_count (documents : List Doc) (p : String) :
    ((introspectState documents) p).count
      = (documents.map (fun d => (valuesAt d "" p).length)).sum := by
  rw [introspectState, introspectState_count_fold]
  rw [show ((fun _ => (default : FieldInfo)) p).count = 0 from rfl, Nat.zero_add]

theorem introspectState_null_fold (docs : List Doc) :
    ∀ (s : IntroState) (p : String),
      ((docs.foldl (fun s d => analyzeDocument d s "") s) p).null_count
        = (s p).null_count
          + (docs.map (fun d =>
              (valuesAt d "" p).countP (fun v => decide (v = Value.vnull)))).sum := by
  induction docs with
  | nil => intro s p; simp
  | cons d rest ih =>
      intro s p
      rw [List.foldl_cons, ih, analyzeDocument_null]
      simp only [List.map_cons, List.sum_cons]
      omega

theorem introspectState_null (documents : List Doc) (p : String) :
    ((introspectState documents) p).null_count
      = (documents.map (fun d =>
          (valuesAt d "" p).countP (fun v => decide (v = Value.vnull)))).sum := by
  rw [introspectState, introspectState_null_fold]
  rw [show ((fun _ => (default : FieldInfo)) p).null_count = 0 from rfl,
    Nat.zero_add]

theorem sum_len_eq_countP (documents : List Doc) (p : String)
    (hwf : ∀ d ∈ documents, wfFields d = true) :
    (documents.map (fun d => (valuesAt d "" p).length)).sum
      = documents.countP (fun d => !(valuesAt d "" p).isEmpty) := by
  induction documents with
  | nil => rfl
  | cons d rest ih =>
      rw [List.map_cons, List.sum_cons, List.countP_cons,
        ih (fun x hx => hwf x (List.mem_cons_of_mem _ hx))]
      have hle := valuesAt_le_one d "" p (hwf d (List.mem_cons_self _ _))
      by_cases hd : valuesAt d "" p = []
      · simp [hd]
      · have hne : (valuesAt d "" p).length ≠ 0 :=
          fun h0 => hd (List.length_eq_zero.mp h0)
        have hone : (valuesAt d "" p).length = 1 := by omega
        rw [hone]
        simp [List.isEmpty_iff, hd]
        omega

theorem null_pos_iff (documents : List Doc) (p : String) :
    0 < ((introspectState documents) p).null_count
      ↔ ∃ d ∈ documents, Value.vnull ∈ valuesAt d "" p := by
  rw [introspectState_null]
  constructor
  · intro hpos
    have hne : (documents.map (fun d =>
        (valuesAt d "" p).countP (fun v => decide (v = Value.vnull)))).sum ≠ 0 :=
      Nat.pos_iff_ne_zero.mp hpos
    have hex : ¬ (∀ x ∈ documents.map (fun d =>
        (valuesAt d "" p).countP (fun v => decide (v = Value.vnull))), x = 0) := by
      intro hall
      exact hne (List.sum_eq_zero hall)
    push_neg at hex
    rcases hex with ⟨x, hx, hxne⟩
    rcases List.mem_map.mp hx with ⟨d, hd, rfl⟩
    have hcp : 0 < (valuesAt d "" p).countP (fun v => decide (v = Value.vnull)) :=
      Nat.pos_iff_ne_zero.mpr hxne
    rcases List.countP_pos_iff.mp hcp with ⟨v, hv, hpred⟩
    have : v = Value.vnull := of_decide_eq_true hpred
    exact ⟨d, hd, this ▸ hv⟩
  · rintro ⟨d, hd, hv⟩
    have hcp : 0 < (valuesAt d "" p).countP (fun v => decide (v = Value.vnull)) :=
      List.countP_pos_iff.mpr ⟨Value.vnull, hv, by simp⟩
    have hmem : (valuesAt d "" p).countP (fun v => decide (v = Value.vnull))
        ∈ documents.map (fun d =>
          (valuesAt d "" p).countP (fun v => decide (v = Value.vnull))) :=
      List.mem_map.mpr ⟨d, hd, rfl⟩
    have := List.single_le_sum (fun x _ => Nat.zero_le x) _ hmem
    omega

/-- C5 counterexample: a dotted literal key colliding with a derived
nested path breaks the frequency invariant.  In the single document
`{a: {b: 1}, "a.b": 2}` the walk observes the path `a.b` twice (once
through the nested dict, once from the literal key), so its frequency
is `2/1 = 2`, outside `[0, 1]` and not the fraction of documents
containing the field. -/
theorem c5_counterexample :
    (introspect [[("a", Value.vdoc [("b", Value.vint 1)]),
        ("a.b", Value.vint 2)]] "a.b").map SchemaEntry.frequency
      = some 2
      ∧ ¬ ((2 : Rat) ≤ 1) := by
  constructor
  · have h1 : (introspect [[("a", Value.vdoc [("b", Value.vint 1)]),
          ("a.b", Value.vint 2)]] "a.b").map SchemaEntry.frequency
        = some (((2 : Nat) : Rat) / ((1 : Nat) : Rat)) := rfl
    rw [h1]
    norm_num
  · norm_num

/-- C5 amended: for well-formed documents — keys contain no dot and are
unique within each dict, recursively — every observed field path has
frequency in `[0, 1]`, equal to the fraction of sampled documents in
which the walk observes the path, and `nullable = true` exactly when at
least one sampled document holds an explicit null at the path. -/
theorem c5_frequency_nullable (documents : List Doc) (p : String)
    (hwf : ∀ d ∈ documents, wfFields d = true)
    (e : SchemaEntry) (he : introspect documents p = some e) :
    0 ≤ e.frequency ∧ e.frequency ≤ 1
      ∧ e.frequency
          = ((documents.countP (fun d => !(valuesAt d "" p).isEmpty) : Rat)
              / (documents.length : Rat))
      ∧ (e.nullable = true
          ↔ ∃ d ∈ documents, Value.vnull ∈ valuesAt d "" p) := by
  unfold introspect at he
  by_cases hd : documents = []
  · rw [if_pos hd] at he
    cases he
  · rw [if_neg hd] at he
    by_cases hc : ((introspectState documents) p).count = 0
    · simp only [hc, if_pos] at he
      cases he
    · simp only [if_neg hc] at he
      have hee := (Option.some.injEq _ _).mp he
      have hfreq : e.frequency
          = (((introspectState documents) p).count : Rat)
            / (documents.length : Rat) := by rw [← hee]
      have hnul : e.nullable
          = decide (((introspectState documents) p).null_count > 0) := by
        rw [← hee]
      have hcount : ((introspectState documents) p).count
          = documents.countP (fun d => !(valuesAt d "" p).isEmpty) := by
        rw [introspectState_count, sum_len_eq_countP documents p hwf]
      have hlen : 0 < documents.length := List.length_pos.mpr hd
      have hlenQ : (0 : Rat) < (documents.length : Rat) := by
        exact_mod_cast hlen
      have hcle : documents.countP (fun d => !(valuesAt d "" p).isEmpty)
          ≤ documents.length := List.countP_le_length _
      refine ⟨?_, ?_, ?_, ?_⟩
      · rw [hfreq]
        exact div_nonneg (Nat.cast_nonneg _) (Nat.cast_nonneg _)
      · rw [hfreq, hcount, div_le_one hlenQ]
        exact_mod_cast hcle
      · rw [hfreq, hcount]
      · rw [hnul]
        simp only [decide_eq_true_eq]
        exact null_pos_iff documents p

/-- C5 witness: the amended frequency/nullable law applied to the
concrete well-formed sample `[{a: null}, {b: 1}]` at field `a`, whose
entry is reported nullable. -/
theorem c5_frequency_nullable_witness :
    ((introspect [[("a", Value.vnull)], [("b", Value.vint 1)]] "a").map
        SchemaEntry.nullable).getD false = true := by
  rcases hi : introspect [[("a", Value.vnull)], [("b", Value.vint 1)]] "a"
    with _ | e
  · exfalso
    have h2 : (introspect [[("a", Value.vnull)], [("b", Value.vint 1)]]
        "a").isSome = true := rfl
    rw [hi] at h2
    cases h2
  · show e.nullable = true
    exact ((c5_frequency_nullable
        [[("a", Value.vnull)], [("b", Value.vint 1)]] "a"
        (by decide) e hi).2.2.2).mpr
      ⟨[("a", Value.vnull)], by decide, by decide⟩

end Monglo
